import Mathlib

set_option maxHeartbeats 1000000

/-!
Verification of the rithm ML-training / data-cleaning scripts
(src/server/ml/authentic-trainer.py, src/server/ml/data-cleaner.py,
src/server/production/authentic-trainer.py) against their specification.

The pandas/sklearn data model is embedded shallowly:
numbers are exact rationals, a missing value (NaN / None) is `none`,
a data frame is a list of named, dtype-tagged columns.  Calls into the
third-party numerical library whose outputs no claim inspects
(StandardScaler, model fitting, cross-validation scores, KNN-imputed
values) are abstracted as parameters, so every theorem holds for every
behaviour of the library; everything the repository itself computes is
modelled exactly.
-/

namespace Rithm

/-- A scalar value held in a pandas cell: a number (Python int/float,
modeled as an exact rational) or a string. -/
inductive Val where
  | num (q : ℚ)
  | str (s : String)
deriving DecidableEq

/-- A cell of a data frame; `none` models a missing value (NaN / None). -/
abbrev Cell := Option Val

def cellPresent (x : Cell) : Bool := x.isSome

def cellNum? (x : Cell) : Option ℚ :=
  match x with
  | some (.num q) => some q
  | _ => none

def cellIsNum (x : Cell) : Bool := (cellNum? x).isSome

/-- Pandas dtype inference at frame construction: a column receives a numeric
dtype (int64/float64) when it has at least one numeric value and every
present value is numeric; otherwise it is an object column. -/
def inferNumeric (cells : List Cell) : Bool :=
  cells.any cellIsNum && cells.all (fun x => !cellPresent x || cellIsNum x)

/-- A pandas column: its name, its dtype (numeric or object), its cells. -/
@[ext]
structure Col where
  name : String
  numeric : Bool
  cells : List Cell
deriving DecidableEq

/-- Column construction with pandas dtype inference. -/
def mkCol (n : String) (cells : List Cell) : Col := ⟨n, inferNumeric cells, cells⟩

/-- A data frame: columns in order. -/
abbrev Frame := List Col

def names (df : Frame) : List String := df.map Col.name

def nrows (df : Frame) : Nat := (df.head?.map (fun c => c.cells.length)).getD 0

def findCol (df : Frame) (n : String) : Option Col := df.find? (fun c => c.name == n)

def dropCol (df : Frame) (n : String) : Frame := df.filter (fun c => c.name != n)

def setCol (df : Frame) (n : String) (c' : Col) : Frame :=
  df.map (fun c => if c.name == n then c' else c)

/-- df.isnull().sum() for one column. -/
def nullCount (c : Col) : Nat := c.cells.countP (fun x => !cellPresent x)

/-- The present values of a column (column.dropna()). -/
def valsOf (c : Col) : List Val := c.cells.filterMap id

/-- The present numeric values of a column. -/
def numsOf (c : Col) : List ℚ := c.cells.filterMap cellNum?

/-- df[col].nunique(): number of distinct non-missing values. -/
def nuniqueCol (c : Col) : Nat := (valsOf c).dedup.length

/-- A frame is well formed when every column tagged numeric holds only
numeric values in its present cells (pandas maintains this). -/
def WFFrame (df : Frame) : Prop :=
  ∀ c ∈ df, c.numeric = true → ∀ x ∈ c.cells, cellPresent x = true → cellIsNum x = true

instance : DecidablePred WFFrame := fun df => by
  unfold WFFrame; infer_instance

/-- Total order used to model how pandas sorts values (mode tie-breaks,
get_dummies category order); numeric before string, each kind by its
natural order. -/
def valLeB : Val → Val → Bool
  | .num a, .num b => decide (a ≤ b)
  | .str a, .str b => decide (a < b) || (a == b)
  | .num _, .str _ => true
  | .str _, .num _ => false

def valLe (a b : Val) : Prop := valLeB a b = true

instance : DecidableRel valLe := fun a b => decEq (valLeB a b) true

/-- pandas Series.median(): middle of the sorted non-missing values,
averaging the two middle ones for an even count; none when empty. -/
def medianQ (l : List ℚ) : Option ℚ :=
  let s := l.insertionSort (· ≤ ·)
  let n := s.length
  if n = 0 then none
  else if n % 2 = 1 then s.get? (n / 2)
  else
    match s.get? (n / 2 - 1), s.get? (n / 2) with
    | some a, some b => some ((a + b) / 2)
    | _, _ => none

/-- Series.mean() of the non-missing values. -/
def meanQ (l : List ℚ) : ℚ := l.sum / l.length

/-- Sample variance (ddof = 1), as used by Series.std(). -/
def varSample (l : List ℚ) : ℚ :=
  (l.map (fun x => (x - meanQ l) ^ 2)).sum / ((l.length : ℚ) - 1)

/-- Population variance (ddof = 0), as used by scipy.stats.zscore. -/
def varPop (l : List ℚ) : ℚ :=
  (l.map (fun x => (x - meanQ l) ^ 2)).sum / (l.length : ℚ)

/-- Series.quantile(q) with the default linear interpolation:
position h = (n-1)q in the sorted values, interpolate between the
neighbouring entries. -/
def quantileQ (l : List ℚ) (q : ℚ) : Option ℚ :=
  let s := l.insertionSort (· ≤ ·)
  let n := s.length
  if n = 0 then none
  else
    let h : ℚ := (n - 1 : ℚ) * q
    let i : Nat := (Int.floor h).toNat
    match s.get? i with
    | none => none
    | some a =>
      match s.get? (i + 1) with
      | none => some a
      | some b => some (a + (h - Int.floor h) * (b - a))

/-- A nonempty all-digit character run as a natural number. -/
def digitsToNat? (l : List Char) : Option Nat :=
  if !l.isEmpty && l.all Char.isDigit then
    some (l.foldl (fun acc ch => acc * 10 + (ch.toNat - 48)) 0)
  else none

/-- pd.to_numeric on the characters of a trimmed string
(errors=coerce): an optionally signed decimal literal with at most one
dot; anything else coerces to NaN.  (Scientific notation, which no input
in this development uses, is not modelled.) -/
def parseNumChars (l : List Char) : Option ℚ :=
  let p : ℚ × List Char :=
    match l with
    | '-' :: t => (-1, t)
    | '+' :: t => (1, t)
    | t => (1, t)
  match (p.2.span (fun ch => ch != '.')) with
  | (a, []) => (digitsToNat? a).map (fun n => p.1 * n)
  | (a, _ :: b) =>
    if b.any (fun ch => ch == '.') then none
    else if a.isEmpty && b.isEmpty then none
    else
      match (if a.isEmpty then some 0 else digitsToNat? a),
            (if b.isEmpty then some 0 else digitsToNat? b) with
      | some n, some m => some (p.1 * ((n : ℚ) + (m : ℚ) / (10 : ℚ) ^ b.length))
      | _, _ => none

/-- pd.to_numeric on a single string: whitespace is trimmed, then the
characters are parsed as a decimal literal. -/
def parseNumStr (s : String) : Option ℚ :=
  parseNumChars (((s.toList.dropWhile Char.isWhitespace).reverse.dropWhile
    Char.isWhitespace).reverse)

/-- pd.to_numeric (errors=coerce) on one cell. -/
def toNumericCell (x : Cell) : Cell :=
  match x with
  | some (.num q) => some (.num q)
  | some (.str s) => (parseNumStr s).map Val.num
  | none => none

/-! ### Python values and sanitize_for_json (authentic-trainer.py lines 49-64) -/

/-- A Python float value: finite (exact rational), NaN, or a signed infinity. -/
inductive F where
  | fin (q : ℚ)
  | nan
  | inf
  | ninf
deriving DecidableEq

/-- The universe of Python values that flow through the trainer results:
dicts, lists, numpy integer and floating scalars, Python floats, and the
remaining atoms (None, bool, int, str), which sanitize_for_json treats
opaquely. -/
inductive PyVal where
  | dict (kvs : List (String × PyVal))
  | lst (l : List PyVal)
  | npInt (n : ℤ)
  | npFloat (f : F)
  | pyFloat (f : F)
  | pyNone
  | pyBool (b : Bool)
  | pyInt (n : ℤ)
  | pyStr (s : String)

mutual

/-- authentic-trainer.py sanitize_for_json: recursively replace NaN and
infinite numeric scalars by None, convert the remaining numpy scalars to
Python floats (np.isnan/np.isinf is false on every numpy integer), and
leave everything else unchanged. -/
def sanitize_for_json : PyVal → PyVal
  | .dict kvs => .dict (sanitizeDict kvs)
  | .lst l => .lst (sanitizeList l)
  | .npInt n => .pyFloat (.fin n)
  | .npFloat f =>
    match f with
    | .fin q => .pyFloat (.fin q)
    | _ => .pyNone
  | .pyFloat f =>
    match f with
    | .fin q => .pyFloat (.fin q)
    | _ => .pyNone
  | .pyNone => .pyNone
  | .pyBool b => .pyBool b
  | .pyInt n => .pyInt n
  | .pyStr s => .pyStr s

def sanitizeDict : List (String × PyVal) → List (String × PyVal)
  | [] => []
  | (k, v) :: t => (k, sanitize_for_json v) :: sanitizeDict t

def sanitizeList : List PyVal → List PyVal
  | [] => []
  | v :: t => sanitize_for_json v :: sanitizeList t

end

mutual

/-- A value is JSON safe when no NaN or infinite float and no raw numpy
scalar occurs at any depth, so json.dumps prints no NaN/Infinity token. -/
def jsonSafe : PyVal → Bool
  | .dict kvs => jsonSafeDict kvs
  | .lst l => jsonSafeList l
  | .npInt _ => false
  | .npFloat _ => false
  | .pyFloat f =>
    match f with
    | .fin _ => true
    | _ => false
  | .pyNone => true
  | .pyBool _ => true
  | .pyInt _ => true
  | .pyStr _ => true

def jsonSafeDict : List (String × PyVal) → Bool
  | [] => true
  | (_, v) :: t => jsonSafe v && jsonSafeDict t

def jsonSafeList : List PyVal → Bool
  | [] => true
  | v :: t => jsonSafe v && jsonSafeList t

end

/-- The shape of a Python value: dict keys and list lengths, with every
non-container collapsed to an atom. -/
inductive PyShape where
  | dict (kvs : List (String × PyShape))
  | lst (l : List PyShape)
  | atom

mutual

def shapeOf : PyVal → PyShape
  | .dict kvs => .dict (shapeDict kvs)
  | .lst l => .lst (shapeList l)
  | _ => .atom

def shapeDict : List (String × PyVal) → List (String × PyShape)
  | [] => []
  | (k, v) :: t => (k, shapeOf v) :: shapeDict t

def shapeList : List PyVal → List PyShape
  | [] => []
  | v :: t => shapeOf v :: shapeList t

end

/-! ### Input data and ingestion (authentic-trainer.py lines 114-164) -/

/-- A value of a top-level JSON dictionary handed to the trainer: a list of
cells, or a single scalar/null cell. -/
inductive DEntry where
  | lste (cells : List Cell)
  | scle (c : Cell)
deriving DecidableEq

/-- The JSON payloads the trainer can receive in its data field: an object
(dict), an array of record objects, a bare scalar, or null. -/
inductive PyData where
  | dct (kvs : List (String × DEntry))
  | recs (records : List (List (String × Cell)))
  | scl (v : Val)
  | pynull
deriving DecidableEq

def entryIsList : DEntry → Bool
  | .lste _ => true
  | .scle _ => false

def entryCells : DEntry → List Cell
  | .lste l => l
  | .scle c => [c]

/-- The Python type name used in the unsupported-format error message. -/
def pyTypeName : PyData → String
  | .dct _ => "<class \x27dict\x27>"
  | .recs _ => "<class \x27list\x27>"
  | .scl (.num _) => "<class \x27float\x27>"
  | .scl (.str _) => "<class \x27str\x27>"
  | .pynull => "<class \x27NoneType\x27>"

/-- pd.DataFrame on a dict of lists: one column per key, in key order;
pandas raises when the lists have different lengths. -/
def dfFromDictOfLists (kvs : List (String × DEntry)) : Except String Frame :=
  match kvs with
  | [] => .ok []
  | (k, e) :: t =>
    let n := (entryCells e).length
    if t.all (fun kv => (entryCells kv.2).length == n) then
      .ok (((k, e) :: t).map (fun kv => mkCol kv.1 (entryCells kv.2)))
    else .error "All arrays must be of the same length"

/-- The record-building loop of preprocess_data (lines 125-138): one record
per index up to the longest list, short lists padded with None and scalars
repeated; the resulting frame has one column per key. -/
def dctRecordsFrame (kvs : List (String × DEntry)) : Frame :=
  let maxLen := (kvs.map (fun kv =>
    match kv.2 with
    | .lste l => l.length
    | .scle _ => 1)).foldr max 0
  kvs.map (fun kv => mkCol kv.1 (
    match kv.2 with
    | .lste l => (List.range maxLen).map (fun i => (l.get? i).getD none)
    | .scle c => List.replicate maxLen c))

/-- Deduplication keeping the first occurrence (column order of
pd.DataFrame on a list of records). -/
def firstDedup (l : List String) : List String :=
  match l with
  | [] => []
  | x :: t => x :: firstDedup (t.filter (fun y => y != x))
termination_by l.length
decreasing_by
  simp only [List.length_cons]
  exact Nat.lt_succ_of_le (List.length_filter_le _ t)

/-- pd.DataFrame on a list of record dicts: columns in order of first
appearance of the keys, missing keys filled with NaN. -/
def recsFrame (records : List (List (String × Cell))) : Frame :=
  (firstDedup ((records.map (fun r => r.map Prod.fst)).flatten)).map (fun k =>
    mkCol k (records.map (fun r => ((List.lookup k r).getD none))))

/-- preprocess_data lines 117-144: convert the incoming JSON payload to a
frame, or raise for an unsupported format.  (The Empty-data-dictionary
branch is kept exactly where the code has it: inside the non-all-lists
path, where the key list is never empty.) -/
def ingest : PyData → Except String Frame
  | .dct kvs =>
    if kvs.all (fun kv => entryIsList kv.2) then dfFromDictOfLists kvs
    else if kvs.isEmpty then .error "Empty data dictionary provided"
    else .ok (dctRecordsFrame kvs)
  | .recs records => .ok (recsFrame records)
  | .scl v => .error ("Unsupported data format: " ++ pyTypeName (.scl v))
  | .pynull => .error ("Unsupported data format: " ++ pyTypeName .pynull)

/-- df.dropna(how=all): remove the rows whose cells are all missing. -/
def dropAllNaRows (df : Frame) : Frame :=
  let keep := (List.range (nrows df)).filter (fun i =>
    df.any (fun c => cellPresent ((c.cells.get? i).getD none)))
  df.map (fun c => { c with cells := keep.map (fun i => (c.cells.get? i).getD none) })

/-- df.loc[:, df.notna().any()]: remove the columns whose cells are all
missing. -/
def dropAllNaCols (df : Frame) : Frame := df.filter (fun c => c.cells.any cellPresent)

/-- preprocess_data lines 117-152: ingestion followed by removal of empty
rows and columns and the emptiness check. -/
def ingestClean (d : PyData) : Except String Frame :=
  match ingest d with
  | .error e => .error e
  | .ok df0 =>
    let df := dropAllNaCols (dropAllNaRows df0)
    if df.isEmpty || nrows df == 0 then .error "No valid data found after cleaning"
    else .ok df

/-- len(data) as used for the samples_total field. -/
def pyLen : PyData → Nat
  | .dct kvs => kvs.length
  | .recs records => records.length
  | .scl _ => 0
  | .pynull => 0

/-! ### Target handling and task type (authentic-trainer.py lines 154-224) -/

/-- The first numeric column of the frame, as picked by
df.select_dtypes(include=np.number).columns.tolist() followed by [0]. -/
def firstNumericName (df : Frame) : Option String :=
  (df.find? (fun c => c.numeric)).map Col.name

/-- preprocess_data lines 154-164: when the requested target column is
missing, fall back to the first numeric column, or failing that the last
column. -/
def chooseTarget (df : Frame) (tgt : String) : String :=
  if (findCol df tgt).isSome then tgt
  else
    match firstNumericName df with
    | some n => n
    | none => ((names df).getLast?).getD tgt

/-- preprocess_data lines 171-175: try to coerce an object target to
numeric; keep the coercion only when it is not all-NaN. -/
def targetAfterConversion (y : Col) : Col :=
  if y.numeric then y
  else
    let yn := y.cells.map toNumericCell
    if yn.any cellPresent then { y with numeric := true, cells := yn } else y

/-- preprocess_data lines 171-204 restricted to the target column: the
task type the ml-path trainer determines for it. -/
def task_type_of (y : Col) : String :=
  let y1 := targetAfterConversion y
  if (valsOf y1).dedup.length ≤ 20 ∧ y1.numeric = false then "classification" else "regression"

/-- production/authentic-trainer.py lines 84-85: same decision, but the
production variant never attempts the numeric coercion of the target. -/
def task_type_of_production (y : Col) : String :=
  if (valsOf y).dedup.length ≤ 20 ∧ y.numeric = false then "classification" else "regression"

/-! ### Feature encoding, imputation and the full preprocess_data -/

/-- Decimal rendering of a rational, matching Python str() on the floats
that arise here (integers are rendered with a trailing .0). -/
def pyStrOfQ (q : ℚ) : String :=
  let sgn := if q < 0 then "-" else ""
  let a := |q|
  match (List.range 65).findSome? (fun k =>
    let m := a * (10 : ℚ) ^ k
    if m.den = 1 then some (m.num.toNat, k) else none) with
  | some (m, 0) => sgn ++ toString m ++ ".0"
  | some (m, k) =>
    let s := toString m
    let s := if s.length ≤ k then String.mk (List.replicate (k + 1 - s.length) '0') ++ s else s
    sgn ++ s.extract 0 ⟨s.length - k⟩ ++ "." ++ s.extract ⟨s.length - k⟩ ⟨s.length⟩
  | none => sgn ++ toString a.num ++ "/" ++ toString a.den

/-- Series.astype(str) on one cell: NaN becomes the string nan. -/
def astypeStrCell (x : Cell) : String :=
  match x with
  | none => "nan"
  | some (.str s) => s
  | some (.num q) => pyStrOfQ q

/-- sklearn LabelEncoder.fit_transform on astype(str) data: each value is
replaced by the rank of its string form among the sorted distinct
strings. -/
def label_encode_cells (cells : List Cell) : List ℚ :=
  let strs := cells.map astypeStrCell
  let classes := strs.dedup.insertionSort (· ≤ ·)
  strs.map (fun s => ((classes.indexOf s : Nat) : ℚ))

/-- sklearn SimpleImputer(strategy=median).fit_transform: fill each
feature with its median; features with no observed value are dropped. -/
def imputeMedian (colsX : List (List (Option ℚ))) : List (List ℚ) :=
  colsX.filterMap (fun l =>
    match medianQ (l.filterMap id) with
    | none => none
    | some m => some (l.map (fun x => x.getD m)))

/-- Column-major to row-major conversion for an n-row matrix. -/
def transposeQ (cols : List (List ℚ)) (n : Nat) : List (List ℚ) :=
  (List.range n).map (fun i => cols.filterMap (fun l => l.get? i))

/-- The preprocessed output: feature rows, target vector, task type. -/
structure PreOut where
  x : List (List ℚ)
  y : List ℚ
  task : String
deriving DecidableEq

/-- preprocess_data lines 154-221 on an already ingested frame.  The
StandardScaler, a pure library call whose output no claim inspects, is
the scale parameter. -/
def preprocessFrame (scale : List (List ℚ) → List (List ℚ)) (df : Frame) (tgt0 : String) :
    Except String PreOut :=
  let tgt := chooseTarget df tgt0
  match findCol df tgt with
  | none => .error "No valid data found after cleaning"
  | some ycol0 =>
    let xdf0 := df.filter (fun c => c.name != tgt)
    let ycol1 := targetAfterConversion ycol0
    let keep := (List.range ycol1.cells.length).filter (fun i =>
      cellPresent ((ycol1.cells.get? i).getD none))
    let xdf := xdf0.map (fun c => { c with cells := keep.map (fun i => (c.cells.get? i).getD none) })
    let yc : List Cell := keep.map (fun i => (ycol1.cells.get? i).getD none)
    if yc.length < 2 then .error "Insufficient data: need at least 2 samples for training"
    else
      let xcols : List (List (Option ℚ)) := xdf.map (fun c =>
        if c.numeric then c.cells.map cellNum?
        else (label_encode_cells c.cells).map some)
      let xrows := transposeQ (imputeMedian xcols) yc.length
      let y1 : Col := { ycol1 with cells := yc }
      let task := if (valsOf y1).dedup.length ≤ 20 ∧ y1.numeric = false then "classification"
                  else "regression"
      if task = "classification" then
        let yenc := label_encode_cells yc
        .ok ⟨scale (xrows.take yenc.length), yenc, task⟩
      else
        let ynum := yc.map toNumericCell
        let keep2 := (List.range ynum.length).filter (fun i =>
          cellPresent ((ynum.get? i).getD none))
        let y2 := keep2.filterMap (fun i => cellNum? ((ynum.get? i).getD none))
        let x2 := keep2.filterMap (fun i => xrows.get? i)
        .ok ⟨scale x2, y2, task⟩

/-- preprocess_data lines 114-224: ingestion, cleaning and preprocessing,
with every internal error wrapped by the Data-preprocessing-failed
handler of line 224. -/
def preprocess_data (scale : List (List ℚ) → List (List ℚ)) (d : PyData) (tgt : String) :
    Except String PreOut :=
  let r : Except String PreOut :=
    match ingestClean d with
    | .error e => .error e
    | .ok df => preprocessFrame scale df tgt
  r.mapError (fun e => "Data preprocessing failed: " ++ e)

/-! ### Estimator registries (authentic-trainer.py lines 66-112) -/

/-- The pre-configured estimator objects built in AuthenticMLTrainer
init, identified by their class and the hyperparameters set there. -/
inductive Estimator where
  | linearRegression
  | randomForestRegressor (nEstimators randomState : Nat)
  | decisionTreeRegressor (randomState : Nat)
  | gradientBoostingRegressor (nEstimators randomState : Nat)
  | svr (kernel : String)
  | kNeighborsRegressor (nNeighbors : Nat)
  | mlpRegressor (h1 h2 maxIter randomState : Nat)
  | logisticRegression (randomState : Nat)
  | randomForestClassifier (nEstimators randomState : Nat)
  | decisionTreeClassifier (randomState : Nat)
  | gradientBoostingClassifier (nEstimators randomState : Nat)
  | svc (kernel : String) (randomState : Nat)
  | kNeighborsClassifier (nNeighbors : Nat)
  | gaussianNB
  | mlpClassifier (h1 h2 maxIter randomState : Nat)
  | kMeans (nClusters randomState : Nat)
  | xgbRegressor (nEstimators randomState : Nat)
  | xgbClassifier (nEstimators randomState : Nat)
  | lgbmRegressor (nEstimators randomState : Nat)
  | lgbmClassifier (nEstimators randomState : Nat)
  | catBoostRegressor (iterations randomState : Nat)
  | catBoostClassifier (iterations randomState : Nat)
deriving DecidableEq

/-- Availability of the optional gradient-boosting libraries. -/
structure Flags where
  xgb : Bool
  lgbm : Bool
  cat : Bool
deriving DecidableEq

/-- self.regression_models. -/
def regression_models (f : Flags) : List (String × Estimator) :=
  [("linear_regression", .linearRegression),
   ("random_forest", .randomForestRegressor 100 42),
   ("decision_tree", .decisionTreeRegressor 42),
   ("gradient_boosting", .gradientBoostingRegressor 100 42),
   ("support_vector_machine", .svr "rbf"),
   ("k_nearest_neighbors", .kNeighborsRegressor 5),
   ("neural_network", .mlpRegressor 100 50 500 42)]
  ++ (if f.xgb then [("xgboost", .xgbRegressor 100 42)] else [])
  ++ (if f.lgbm then [("lightgbm", .lgbmRegressor 100 42)] else [])
  ++ (if f.cat then [("catboost", .catBoostRegressor 100 42)] else [])

/-- self.classification_models. -/
def classification_models (f : Flags) : List (String × Estimator) :=
  [("logistic_regression", .logisticRegression 42),
   ("random_forest", .randomForestClassifier 100 42),
   ("decision_tree", .decisionTreeClassifier 42),
   ("gradient_boosting", .gradientBoostingClassifier 100 42),
   ("support_vector_machine", .svc "rbf" 42),
   ("k_nearest_neighbors", .kNeighborsClassifier 5),
   ("naive_bayes", .gaussianNB),
   ("neural_network", .mlpClassifier 100 50 500 42)]
  ++ (if f.xgb then [("xgboost", .xgbClassifier 100 42)] else [])
  ++ (if f.lgbm then [("lightgbm", .lgbmClassifier 100 42)] else [])
  ++ (if f.cat then [("catboost", .catBoostClassifier 100 42)] else [])

/-- self.clustering_models. -/
def clustering_models : List (String × Estimator) := [("k_means", .kMeans 3 42)]

/-- The registry train_model consults for a determined task type
(lines 249-256). -/
def modelsFor (f : Flags) (task : String) : List (String × Estimator) :=
  if task = "regression" then regression_models f else classification_models f

/-- train_model lines 250-255: an algorithm name absent from the registry
is replaced by random_forest. -/
def selectName (models : List (String × Estimator)) (alg : String) : String :=
  if (models.lookup alg).isSome then alg else "random_forest"

/-- Estimators exposing feature_importances_ (tree ensembles and single
trees; the linear, kernel, neighbor, Bayes and network models do not). -/
def hasFeatImp : Estimator → Bool
  | .randomForestRegressor _ _ | .decisionTreeRegressor _
  | .gradientBoostingRegressor _ _
  | .randomForestClassifier _ _ | .decisionTreeClassifier _
  | .gradientBoostingClassifier _ _
  | .xgbRegressor _ _ | .xgbClassifier _ _
  | .lgbmRegressor _ _ | .lgbmClassifier _ _
  | .catBoostRegressor _ _ | .catBoostClassifier _ _ => true
  | _ => false

/-! ### The training routines (authentic-trainer.py lines 226-477) -/

/-- The sklearn calls whose outputs the scripts only pass along: the
scaler, the fitted-model metrics, cross-validation scores, k-means
labels and centers, and feature importances.  All theorems hold for
every oracle. -/
structure MLOracle where
  scale : List (List ℚ) → List (List ℚ)
  metric : String → F
  cvMean : String → ℚ
  cvStd : String → ℚ
  featImp : Nat → F
  clusterLabels : List (List ℚ) → List ℤ
  centers : List (List ℚ)

/-- pd.DataFrame(data) as called directly by train_clustering_model
(lines 331-334): scalars broadcast against lists, an all-scalar dict and
a bare scalar raise. -/
def dataFrameDirect : PyData → Except String Frame
  | .dct kvs =>
    match kvs.filterMap (fun kv =>
      match kv.2 with
      | .lste l => some l.length
      | .scle _ => none) with
    | [] =>
      if kvs.isEmpty then .ok []
      else .error "If using all scalar values, you must pass an index"
    | n :: rest =>
      if rest.all (fun m => m == n) then
        .ok (kvs.map (fun kv => mkCol kv.1 (
          match kv.2 with
          | .lste l => l
          | .scle c => List.replicate n c)))
      else .error "All arrays must be of the same length"
  | .recs records => .ok (recsFrame records)
  | .scl _ => .error "DataFrame constructor not properly called!"
  | .pynull => .ok []

/-- train_clustering_model lines 331-340: direct frame conversion, numeric
column selection, imputation and scaling.  The sklearn imputer raises on
an empty feature or sample axis. -/
def clusteringX (scale : List (List ℚ) → List (List ℚ)) (d : PyData) :
    Except String (List (List ℚ)) :=
  match dataFrameDirect d with
  | .error e => .error e
  | .ok df =>
    let imp := imputeMedian ((df.filter (fun c => c.numeric)).map (fun c => c.cells.map cellNum?))
    if imp.isEmpty then .error "Found array with 0 feature(s)"
    else if nrows df == 0 then .error "Found array with 0 sample(s)"
    else .ok (scale (transposeQ imp (nrows df)))

/-- train_clustering_model (lines 327-372). -/
def train_clustering_model (o : MLOracle) (d : PyData) (alg : String) :
    List (String × PyVal) :=
  match clusteringX o.scale d with
  | .error e => [("success", .pyBool false), ("error", .pyStr e), ("algorithm", .pyStr alg)]
  | .ok X =>
    match clustering_models.lookup alg with
    | none =>
      [("success", .pyBool false), ("error", .pyStr ("\x27" ++ alg ++ "\x27")),
       ("algorithm", .pyStr alg)]
    | some _ =>
      let labels := o.clusterLabels X
      let nclusters := labels.dedup.length
      let silh : F := if 1 < nclusters then o.metric "silhouette" else .fin 0
      [("algorithm", .pyStr alg), ("task_type", .pyStr "clustering"),
       ("samples_total", .pyInt (pyLen d)), ("samples_used", .pyInt X.length),
       ("features", .pyInt (((X.head?).map List.length).getD 0 : ℕ)),
       ("n_clusters", .pyInt nclusters),
       ("silhouette_score", .pyFloat silh),
       ("cluster_centers", .lst (o.centers.map (fun r => .lst (r.map (fun q => .pyFloat (.fin q)))))),
       ("labels", .lst ((labels.take 100).map (fun i => .pyInt i))),
       ("success", .pyBool true)]

/-- train_auto_ml lines 380-383. -/
def testAlgorithms (task : String) : List String :=
  if task = "regression" then ["linear_regression", "random_forest", "decision_tree", "gradient_boosting"]
  else ["logistic_regression", "random_forest", "decision_tree", "gradient_boosting"]

/-- score > best_score with best_score initialized to minus infinity
(regression, modeled by none) or 0.0 (classification). -/
def betterScore (s : ℚ) (best : Option ℚ) : Bool :=
  match best with
  | none => true
  | some b => decide (b < s)

/-- The best-algorithm fold of train_auto_ml lines 385-417. -/
def bestAlgorithm (o : MLOracle) (task : String) : String :=
  ((testAlgorithms task).foldl
    (fun st a => if betterScore (o.cvMean a) st.1 then (some (o.cvMean a), a) else st)
    ((if task = "regression" then none else some 0), (testAlgorithms task).headD "")).2

/-- The train/test sample counts of an sklearn split with float test size
(n_test is the ceiling of test_size times n). -/
def splitCounts (n : Nat) : Nat × Nat :=
  if 10 < n then (n - (((n : ℚ) / 5).ceil.toNat), ((n : ℚ) / 5).ceil.toNat)
  else if 5 < n then (n - (((n : ℚ) / 10).ceil.toNat), ((n : ℚ) / 10).ceil.toNat)
  else if 2 < n then (n - 1, 1)
  else (n, n)

/-- train_auto_ml (lines 374-477). -/
def train_auto_ml (o : MLOracle) (d : PyData) (tgt : String) : List (String × PyVal) :=
  match preprocess_data o.scale d tgt with
  | .error e =>
    [("success", .pyBool false), ("error", .pyStr e), ("algorithm", .pyStr "auto_ml"),
     ("target_column", .pyStr tgt)]
  | .ok p =>
    let n := p.x.length
    let nfeat := ((p.x.head?).map List.length).getD 0
    let allResults : PyVal := .lst ((testAlgorithms p.task).map (fun a =>
      .dict [("algorithm", .pyStr a), ("score", .pyFloat (.fin (o.cvMean a))),
             ("cv_std", .pyFloat (.fin (o.cvStd a)))]))
    let counts := if 2 < n then (n - (((n : ℚ) / 5).ceil.toNat), ((n : ℚ) / 5).ceil.toNat) else (n, n)
    let base := [("algorithm", .pyStr "auto_ml"), ("best_algorithm", .pyStr (bestAlgorithm o p.task)),
                 ("task_type", .pyStr p.task), ("target_column", .pyStr tgt),
                 ("samples_total", .pyInt (pyLen d)), ("samples_used", .pyInt n),
                 ("features", .pyInt nfeat)]
    if p.task == "regression" then
      base ++ [("r2_score", .pyFloat (o.metric "r2")), ("mse", .pyFloat (o.metric "mse")),
               ("tested_algorithms", allResults),
               ("training_samples", .pyInt counts.1), ("test_samples", .pyInt counts.2),
               ("success", .pyBool true)]
    else
      base ++ [("accuracy", .pyFloat (o.metric "accuracy")),
               ("tested_algorithms", allResults),
               ("training_samples", .pyInt counts.1), ("test_samples", .pyInt counts.2),
               ("success", .pyBool true)]

/-- train_model (lines 226-325). -/
def train_model (o : MLOracle) (f : Flags) (d : PyData) (alg tgt : String) :
    List (String × PyVal) :=
  if alg == "k_means" then train_clustering_model o d alg
  else if alg == "auto_ml" then train_auto_ml o d tgt
  else
    match preprocess_data o.scale d tgt with
    | .error e =>
      [("success", .pyBool false), ("error", .pyStr e), ("algorithm", .pyStr alg),
       ("target_column", .pyStr tgt)]
    | .ok p =>
      let n := p.x.length
      let models := modelsFor f p.task
      let algName := selectName models alg
      let counts := splitCounts n
      let nfeat := ((p.x.head?).map List.length).getD 0
      let base := [("algorithm", .pyStr algName), ("task_type", .pyStr p.task),
                   ("target_column", .pyStr tgt), ("samples_total", .pyInt (pyLen d)),
                   ("samples_used", .pyInt n), ("features", .pyInt nfeat)]
      let metrics := if p.task == "regression" then
          [("mse", .pyFloat (o.metric "mse")), ("r2_score", .pyFloat (o.metric "r2")),
           ("cv_mean", .pyFloat (o.metric "cv_mean")), ("cv_std", .pyFloat (o.metric "cv_std")),
           ("training_samples", .pyInt counts.1), ("test_samples", .pyInt counts.2)]
        else
          [("accuracy", .pyFloat (o.metric "accuracy")),
           ("cv_mean", .pyFloat (o.metric "cv_mean")), ("cv_std", .pyFloat (o.metric "cv_std")),
           ("training_samples", .pyInt counts.1), ("test_samples", .pyInt counts.2),
           ("classes", .pyInt (p.y.dedup.length))]
      let fi := match models.lookup algName with
        | some m =>
          if hasFeatImp m then
            [("feature_importance", .dict ((List.range nfeat).map (fun i =>
              ("feature_" ++ toString i, .pyFloat (o.featImp i)))))]
          else []
        | none => []
      base ++ metrics ++ fi ++ [("success", .pyBool true)]

/-- The estimators a train_model call fits, as an observation on the
embedding: the looked-up clustering model for k_means, the tested models
plus the best one for auto_ml, and the selected registry entry
otherwise; nothing is fitted when preprocessing fails. -/
def fittedEstimators (o : MLOracle) (f : Flags) (d : PyData) (alg tgt : String) :
    List Estimator :=
  if alg == "k_means" then
    match clusteringX o.scale d with
    | .ok _ => (clustering_models.lookup alg).toList
    | .error _ => []
  else if alg == "auto_ml" then
    match preprocess_data o.scale d tgt with
    | .ok p =>
      ((testAlgorithms p.task).filterMap (fun a => (modelsFor f p.task).lookup a))
        ++ ((modelsFor f p.task).lookup (bestAlgorithm o p.task)).toList
    | .error _ => []
  else
    match preprocess_data o.scale d tgt with
    | .ok p => ((modelsFor f p.task).lookup (selectName (modelsFor f p.task) alg)).toList
    | .error _ => []

/-! ### The command-line entry point (authentic-trainer.py lines 479-511) -/

/-- The outcome of parsing one JSON source (stdin or argv): a parse error
with its message, or the parsed top-level object as a field list. -/
inductive ParseResult where
  | bad (msg : String)
  | good (fields : List (String × PyData))

/-- The string content of a JSON field expected to hold a string; any
other value flows through Python unchanged and behaves exactly like a
name matching no registry entry and no column, which the placeholder
models. -/
def strOfPyData : PyData → String
  | .scl (.str s) => s
  | _ => "__nonstring__"

/-- What main prints and the exit status it ends with. -/
structure MainOut where
  printed : PyVal
  exitCode : Nat

def missingFieldDict (k : String) : PyVal :=
  .dict [("error", .pyStr ("Missing required field: \x27" ++ k ++ "\x27")),
         ("success", .pyBool false)]

/-- main lines 484-510 once the input source is fixed: JSON decoding
errors, the three required fields in order, then training followed by
sanitization. -/
def runTrainerInput (o : MLOracle) (f : Flags) : ParseResult → MainOut
  | .bad m =>
    ⟨.dict [("error", .pyStr ("Invalid JSON input: " ++ m)), ("success", .pyBool false)], 1⟩
  | .good fields =>
    match List.lookup "data" fields with
    | none => ⟨missingFieldDict "data", 1⟩
    | some d =>
      match List.lookup "algorithm" fields with
      | none => ⟨missingFieldDict "algorithm", 1⟩
      | some a =>
        match List.lookup "target_column" fields with
        | none => ⟨missingFieldDict "target_column", 1⟩
        | some t =>
          ⟨sanitize_for_json (.dict (train_model o f d (strOfPyData a) (strOfPyData t))), 0⟩

/-- main lines 479-511: stdin with no arguments, the single argument with
one, a usage error otherwise (argv includes the script name). -/
def mainTrainer (o : MLOracle) (f : Flags) (argv : List String)
    (stdin arg1 : ParseResult) : MainOut :=
  if argv.length == 1 then runTrainerInput o f stdin
  else if argv.length == 2 then runTrainerInput o f arg1
  else ⟨.dict [("error", .pyStr "Usage: python authentic-trainer.py <json_input> OR pipe JSON data")], 1⟩

/-! ### data-cleaner.py: missing-value handling (lines 95-155) -/

/-- The imputation operations handle_missing_values records in
operations_performed. -/
inductive COp where
  | droppedCol (n : String)
  | knnApplied
  | medianImp (n : String)
  | modeImp (n : String)
  | unknownImp (n : String)
deriving DecidableEq

def renderCOp : COp → String
  | .droppedCol n => "Dropped column \x27" ++ n ++ "\x27 (>90% missing)"
  | .knnApplied => "KNN imputation applied to numeric columns"
  | .medianImp n => "Median imputation for \x27" ++ n ++ "\x27"
  | .modeImp n => "Mode imputation for \x27" ++ n ++ "\x27"
  | .unknownImp n => "\x27Unknown\x27 imputation for \x27" ++ n ++ "\x27"

/-- Series.mode().iloc[0]: the most frequent present value, smallest
first on ties, none for an all-missing column. -/
def modeVal (c : Col) : Option Val :=
  let vs := valsOf c
  let mx := (vs.dedup.map (fun v => vs.count v)).foldr max 0
  (vs.dedup.filter (fun v => vs.count v == mx)).foldl (fun acc v =>
    match acc with
    | none => some v
    | some w => some (if valLeB v w then v else w)) none

/-- Series.fillna with a concrete value. -/
def fillCells (cells : List Cell) (v : Val) : List Cell :=
  cells.map (fun x => some (x.getD v))

/-- fillna(median): a no-op when the column has no observed value. -/
def fillMedianCol (c : Col) : Col :=
  match medianQ (numsOf c) with
  | none => c
  | some m => { c with cells := fillCells c.cells (.num m) }

/-- fillna(mean): a no-op when the column has no observed value. -/
def fillMeanCol (c : Col) : Col :=
  match numsOf c with
  | [] => c
  | vs => { c with cells := fillCells c.cells (.num (meanQ vs)) }

def numericColCount (df : Frame) : Nat := (df.filter (fun c => c.numeric)).length

/-- KNNImputer(n_neighbors=5).fit_transform applied to all numeric columns
of the frame at once (line 119): every missing numeric entry is replaced
by a library-computed value, abstracted as the knn parameter. -/
def knnFillFrame (knn : String → Nat → ℚ) (df : Frame) : Frame :=
  df.map (fun c =>
    if c.numeric then
      { c with cells := c.cells.enum.map (fun p => some (p.2.getD (.num (knn c.name p.1)))) }
    else c)

/-- One iteration of the column loop of handle_missing_values
(lines 99-150).  The missing percentage is computed against the column
length (equal to len(df) since every operation keeps the frame
rectangular).  Every numeric column of a pandas frame has an observed
value (an all-missing column gets the object dtype), so the KNN
except-fallback of lines 121-124 is unreachable and is not modeled. -/
def missingStep (strategy : String) (knn : String → Nat → ℚ)
    (st : Frame × List COp) (n : String) : Frame × List COp :=
  match findCol st.1 n with
  | none => st
  | some c =>
    let df := st.1
    let ops := st.2
    let nullc := nullCount c
    if nullc == 0 then st
    else if 90 * c.cells.length < 100 * nullc then
      (dropCol df n, ops ++ [.droppedCol n])
    else if c.numeric then
      if strategy == "smart" then
        if 100 * nullc < 50 * c.cells.length && 1 < numericColCount df then
          (knnFillFrame knn df, ops ++ [.knnApplied])
        else (setCol df n (fillMedianCol c), ops ++ [.medianImp n])
      else if strategy == "mean" then (setCol df n (fillMeanCol c), ops)
      else if strategy == "median" then (setCol df n (fillMedianCol c), ops)
      else if strategy == "zero" then
        (setCol df n { c with cells := fillCells c.cells (.num 0) }, ops)
      else st
    else if 100 * nullc < 50 * c.cells.length then
      match modeVal c with
      | some m => (setCol df n { c with cells := fillCells c.cells m }, ops ++ [.modeImp n])
      | none =>
        (setCol df n { c with cells := fillCells c.cells (.str "Unknown") }, ops ++ [.unknownImp n])
    else
      (setCol df n { c with cells := fillCells c.cells (.str "Unknown") }, ops ++ [.unknownImp n])

/-- handle_missing_values (lines 95-155): the column loop runs over the
snapshot of the column names taken at entry. -/
def handle_missing_values (strategy : String) (knn : String → Nat → ℚ) (df : Frame) :
    Frame × List COp :=
  (names df).foldl (missingStep strategy knn) (df, [])

/-! ### data-cleaner.py: name cleaning, type conversion, duplicates -/

def isWordChar (ch : Char) : Bool := ch.isAlphanum || ch == '_'

/-- Replace every maximal run of characters satisfying p by one
replacement character. -/
def collapseRuns (p : Char → Bool) (repl : Char) (l : List Char) : List Char :=
  (l.foldl (fun (st : List Char × Bool) ch =>
    if p ch then (if st.2 then st else (st.1 ++ [repl], true))
    else (st.1 ++ [ch], false)) ([], false)).1

/-- clean_column_names (lines 77-93) on one name: strip, lowercase,
special characters to underscores, whitespace runs to one underscore,
underscore runs collapsed. -/
def clean_column_name (s : String) : String :=
  let step2 := (s.trim.toLower).toList.map (fun ch =>
    if isWordChar ch || ch.isWhitespace then ch else '_')
  String.mk (collapseRuns (fun ch => ch == '_') '_'
    (collapseRuns Char.isWhitespace '_' step2))

def clean_column_names (df : Frame) : Frame :=
  df.map (fun c => { c with name := clean_column_name c.name })

/-- The character filter of convert_data_types line 166: keep only digits,
dots and minus signs. -/
def stripToNumChars (s : String) : String :=
  String.mk (s.toList.filter (fun ch => ch.isDigit || ch == '.' || ch == '-'))

/-- The invalid-pattern regex of line 167: minus signs, one dot, minus
signs, spanning the whole string. -/
def invalidNumPattern (s : String) : Bool :=
  match (s.toList.span (fun ch => ch == '-')).2 with
  | '.' :: rest => rest.all (fun ch => ch == '-')
  | _ => false

/-- convert_data_types (lines 157-184): coerce each object column through
the character cleaning to numeric, keeping the conversion only when it
adds missing values on less than 50 percent of the rows. -/
def convert_data_types (forceNumeric : Bool) (df : Frame) : Frame :=
  if !forceNumeric then df
  else df.map (fun c =>
    if c.numeric then c
    else
      let cleaned : List (Option ℚ) := c.cells.map (fun x =>
        let s1 := stripToNumChars ((astypeStrCell x).trim)
        parseNumStr (if invalidNumPattern s1 then "" else s1))
      if 100 * cleaned.countP Option.isNone < 100 * nullCount c + 50 * c.cells.length then
        { c with numeric := true, cells := cleaned.map (fun x => x.map Val.num) }
      else c)

def rowAt (df : Frame) (i : Nat) : List Cell :=
  df.map (fun c => (c.cells.get? i).getD none)

/-- remove_duplicates (lines 225-235): drop_duplicates keeps the first
occurrence of each row. -/
def remove_duplicates (df : Frame) : Frame :=
  let keep := (List.range (nrows df)).filter (fun i =>
    (List.range i).all (fun j => rowAt df j != rowAt df i))
  df.map (fun c => { c with cells := keep.map (fun i => (c.cells.get? i).getD none) })

/-! ### data-cleaner.py: outlier capping (lines 186-223) -/

/-- Series.clip(lower, upper) on one cell. -/
def clampCell (lo hi : ℚ) : Cell → Cell
  | some (.num q) => some (.num (min (max q lo) hi))
  | other => other

/-- The IQR branch on one column (lines 196-207): compute the quantile
bounds and clip only when at least one value falls outside them. -/
def iqrCapCol (t : ℚ) (c : Col) : Col :=
  let vs := numsOf c
  match quantileQ vs (1/4), quantileQ vs (3/4) with
  | some q1, some q3 =>
    let lo := q1 - t * (q3 - q1)
    let hi := q3 + t * (q3 - q1)
    if 0 < vs.countP (fun x => decide (x < lo) || decide (hi < x)) then
      { c with cells := c.cells.map (clampCell lo hi) }
    else c
  | _, _ => c

/-- handle_outliers with the iqr method: numeric columns with more than 10
distinct values are capped, everything else is untouched. -/
def handle_outliers_iqr (t : ℚ) (df : Frame) : Frame :=
  df.map (fun c => if c.numeric && decide (10 < nuniqueCol c) then iqrCapCol t c else c)

/-- A cell value in the real-valued model of the z-score branch, whose
clip bounds involve a square root. -/
inductive RVal where
  | num (x : ℝ)
  | str (s : String)

@[ext]
structure RCol where
  name : String
  numeric : Bool
  cells : List (Option RVal)

def rvalOfVal : Val → RVal
  | .num q => .num q
  | .str s => .str s

def rcolOfCol (c : Col) : RCol :=
  ⟨c.name, c.numeric, c.cells.map (fun x => x.map rvalOfVal)⟩

/-- Series.clip(lower, upper) on one cell of the real-valued model. -/
noncomputable def clampRCell (lo hi : ℝ) : Option RVal → Option RVal
  | some (.num x) => some (.num (min (max x lo) hi))
  | some (.str s) => some (.str s)
  | none => none

open Classical in
/-- The z-score branch on one column (lines 209-221): outliers are
detected with the population z-score of the observed values and, when
any exists, every value is clipped to mean plus-minus threshold times
the sample standard deviation. -/
noncomputable def zscoreCapCol (t : ℝ) (c : Col) : RCol :=
  let vs := numsOf c
  let m : ℝ := (meanQ vs : ℚ)
  let lo := m - t * Real.sqrt (varSample vs)
  let hi := m + t * Real.sqrt (varSample vs)
  if 0 < vs.countP (fun x : ℚ => decide (t * Real.sqrt (varPop vs) < |(x : ℝ) - m|)) then
    ⟨c.name, c.numeric, (rcolOfCol c).cells.map (clampRCell lo hi)⟩
  else rcolOfCol c

/-- handle_outliers with the zscore method, over the real-valued copy of
the frame. -/
noncomputable def handle_outliers_zscore (t : ℝ) (df : Frame) : List RCol :=
  df.map (fun c =>
    if c.numeric && decide (10 < nuniqueCol c) then zscoreCapCol t c else rcolOfCol c)

/-! ### data-cleaner.py: categorical encoding (lines 237-269) -/

/-- str(value) as used in get_dummies column names. -/
def valKeyStr : Val → String
  | .str s => s
  | .num q => pyStrOfQ q

/-- pd.get_dummies(series, prefix=pre, dummy_na=False): one indicator
column per distinct present value, in sorted value order; missing rows
get all-zero indicators.  (pandas gives the indicators the bool dtype;
they are modeled as numeric 0/1 columns, which equally keeps them out of
the object-column selection.) -/
def dummyCols (pre : String) (cells : List Cell) : List Col :=
  (((cells.filterMap id).dedup).insertionSort valLe).map (fun v =>
    ⟨pre ++ "_" ++ valKeyStr v, true,
     cells.map (fun x => some (.num (if x == some v then 1 else 0)))⟩)

/-- Label encoding of a column in place (lines 254-257). -/
def labelEncodeCol (c : Col) : Col :=
  ⟨c.name, true, (label_encode_cells c.cells).map (fun q => some (.num q))⟩

/-- value_counts().head(k).index: the k most frequent present values. -/
def topCategories (cells : List Cell) (k : Nat) : List Val :=
  let vs := cells.filterMap id
  ((vs.dedup).insertionSort (fun a b => vs.count b ≤ vs.count a)).take k

/-- series.where(series.isin(top), Other): values outside the top
categories, including missing ones, become the string Other
(lines 260-261). -/
def groupTopCol (c : Col) (k : Nat) : Col :=
  let top := topCategories c.cells k
  { c with cells := c.cells.map (fun x =>
    match x with
    | some v => if top.contains v then some v else some (.str "Other")
    | none => some (.str "Other")) }

/-- One iteration of the encoding loop (lines 245-267): one-hot for at
most 10 distinct values, label encoding in place for at most 50, top-20
grouping followed by one-hot beyond that; pd.concat appends the dummy
columns at the end and the original column is dropped. -/
def encodeStep (st : Frame) (n : String) : Frame :=
  match findCol st n with
  | none => st
  | some c =>
    let u := nuniqueCol c
    if u ≤ 10 then dropCol st n ++ dummyCols n c.cells
    else if u ≤ 50 then setCol st n (labelEncodeCol c)
    else dropCol st n ++ dummyCols n (groupTopCol c 20).cells

/-- The processed column list (lines 239-243): the object columns, minus
the target column when the target name is truthy and among them. -/
def encodeTargets (df : Frame) (tgt : Option String) : List String :=
  let cats := (df.filter (fun c => !c.numeric)).map Col.name
  match tgt with
  | some t => if t != "" && cats.contains t then cats.filter (fun x => x != t) else cats
  | none => cats

/-- encode_categorical_variables (lines 237-269). -/
def encode_categorical_variables (df : Frame) (tgt : Option String) : Frame :=
  (encodeTargets df tgt).foldl encodeStep df

/-! ### data-cleaner.py: the clean_data pipeline (lines 271-344) -/

/-- The options clean_data consults, with the defaults of lines 273-285
(options.get applies the same defaults to a partial options dict). -/
structure CleanOptions where
  cleanColumnNames : Bool
  handleMissing : Bool
  missingStrategy : String
  convertTypes : Bool
  forceNumeric : Bool
  handleOutliers : Bool
  outlierMethod : String
  removeDuplicates : Bool
  encodeCategorical : Bool
  targetColumn : Option String

/-- pd.DataFrame conversion of clean_data lines 288-294. -/
def toDFClean : PyData → Except String Frame
  | .dct kvs => dataFrameDirect (.dct kvs)
  | .recs records => .ok (recsFrame records)
  | .scl v => .error ("Unsupported data format: " ++ pyTypeName (.scl v))
  | .pynull => .error ("Unsupported data format: " ++ pyTypeName .pynull)

/-- The cleaning pipeline of lines 302-318.  The z-score outlier step,
whose exact output lives in the real-valued model handle_outliers_zscore,
is the zstep parameter; an unknown outlier method is a no-op. -/
def cleanFrame (zstep : Frame → Frame) (knn : String → Nat → ℚ)
    (opts : CleanOptions) (df0 : Frame) : Frame × List COp :=
  let df1 := if opts.cleanColumnNames then clean_column_names df0 else df0
  let st := if opts.handleMissing then handle_missing_values opts.missingStrategy knn df1
            else (df1, [])
  let df3 := if opts.convertTypes then convert_data_types opts.forceNumeric st.1 else st.1
  let df4 := if opts.removeDuplicates then remove_duplicates df3 else df3
  let df5 := if opts.handleOutliers then
      (if opts.outlierMethod == "iqr" then handle_outliers_iqr (3/2) df4
       else if opts.outlierMethod == "zscore" then zstep df4
       else df4)
    else df4
  let df6 := if opts.encodeCategorical then encode_categorical_variables df5 opts.targetColumn
             else df5
  (df6, st.2)

/-- A cell in the to_dict(list) output: a missing value surfaces as the
float NaN. -/
def cellPyVal : Cell → PyVal
  | none => .pyFloat .nan
  | some (.num q) => .pyFloat (.fin q)
  | some (.str s) => .pyStr s

/-- The report dict in its initial state (lines 24-32). -/
def emptyReport : PyVal :=
  .dict [("operations_performed", .lst []), ("data_quality_issues", .lst []),
         ("columns_modified", .lst []), ("rows_affected", .pyInt 0),
         ("original_shape", .pyNone), ("final_shape", .pyNone)]

/-- The report after a successful run.  Only the operation strings of the
missing-value step, the ones claims reason about, are tracked here; the
entries contributed by the other steps and the quality analysis are
claim-irrelevant and left unmodeled. -/
def reportOf (df0 df : Frame) (ops : List COp) : PyVal :=
  .dict [("operations_performed", .lst (ops.map (fun op => .pyStr (renderCOp op)))),
         ("data_quality_issues", .lst []), ("columns_modified", .lst []),
         ("rows_affected", .pyInt 0),
         ("original_shape", .lst [.pyInt (nrows df0), .pyInt df0.length]),
         ("final_shape", .lst [.pyInt (nrows df), .pyInt df.length])]

/-- clean_data (lines 271-344). -/
def clean_data (zstep : Frame → Frame) (knn : String → Nat → ℚ)
    (d : PyData) (opts : CleanOptions) : List (String × PyVal) :=
  match toDFClean d with
  | .error e =>
    [("success", .pyBool false), ("error", .pyStr e), ("cleaning_report", emptyReport)]
  | .ok df0 =>
    let st := cleanFrame zstep knn opts df0
    [("success", .pyBool true),
     ("cleaned_data", .dict (st.1.map (fun c => (c.name, .lst (c.cells.map cellPyVal))))),
     ("cleaning_report", reportOf df0 st.1 st.2),
     ("summary", .dict
       [("original_rows", .pyInt (nrows df0)), ("original_columns", .pyInt df0.length),
        ("final_rows", .pyInt (nrows st.1)), ("final_columns", .pyInt st.1.length),
        ("operations_count", .pyInt st.2.length), ("issues_found", .pyInt 0)])]

/-! ### Definitions used only in theorem statements -/

/-- The value the smart strategy fills a categorical column with: the
mode when less than half the column is missing (Unknown when no mode
exists), Unknown otherwise. -/
def objectFillVal (c : Col) : Val :=
  if 100 * nullCount c < 50 * c.cells.length then (modeVal c).getD (.str "Unknown")
  else .str "Unknown"

/-- A top-level result dict is well formed: success true, or success
false together with an error string. -/
def resultOk (r : List (String × PyVal)) : Prop :=
  List.lookup "success" r = some (.pyBool true)
  ∨ (List.lookup "success" r = some (.pyBool false)
     ∧ ∃ s, List.lookup "error" r = some (.pyStr s))

/-- The columns one encoding step appends for a processed column name. -/
def blockOf (df : Frame) (n : String) : List Col :=
  match findCol df n with
  | some c =>
    if nuniqueCol c ≤ 10 then dummyCols n c.cells
    else if nuniqueCol c ≤ 50 then []
    else dummyCols n (groupTopCol c 20).cells
  | none => []

/-- What becomes of a column in place under the cardinality rule: dropped
when one-hot encoded, label encoded at medium cardinality, untouched
when numeric or target. -/
def keepCol (cats : List String) (c : Col) : Option Col :=
  if !c.numeric && cats.contains c.name then
    (if nuniqueCol c ≤ 10 then none
     else if nuniqueCol c ≤ 50 then some (labelEncodeCol c)
     else none)
  else some c

/-- The claim-level description of encode_categorical_variables: each
column transformed in place by the cardinality rule, followed by the
dummy blocks of the processed columns in processing order. -/
def encodeFlat (df : Frame) (cats : List String) : Frame :=
  df.filterMap (keepCol cats) ++ (cats.map (blockOf df)).flatten

/-- The names of the dummy columns the encoding will append. -/
def encodeNewNames (df : Frame) (cats : List String) : List String :=
  (cats.map (fun n => (blockOf df n).map Col.name)).flatten

/-- Freshness: the column names together with the dummy names to be
created are pairwise distinct. -/
def encodeNamesOk (df : Frame) (cats : List String) : Prop :=
  (names df ++ encodeNewNames df cats).Nodup

/-- A trivial oracle used to witness the theorems at concrete inputs. -/
def oracle0 : MLOracle :=
  ⟨id, fun _ => .fin 0, fun _ => 0, fun _ => 0, fun _ => .fin 0, fun _ => [], []⟩

/-- A numeric column with eleven distinct values, used to witness the
outlier-capping theorem. -/
def exCol4 : Col :=
  mkCol "v" [some (.num 0), some (.num 1), some (.num 2), some (.num 3), some (.num 4),
    some (.num 5), some (.num 6), some (.num 7), some (.num 8), some (.num 9),
    some (.num 100)]

/-- Every numeric-dtype column holds at least one observed numeric value:
pandas gives an all-missing or all-object column the object dtype, so a
frame built by dtype inference satisfies this. -/
def NumObs (df : Frame) : Prop :=
  ∀ c ∈ df, c.numeric = true → numsOf c ≠ []

instance : DecidablePred NumObs := fun df => by
  unfold NumObs; infer_instance

/-- A constant stand-in for the KNN-imputed values. -/
def knn0 : String → Nat → ℚ := fun _ _ => 7

/-- Eleven rows, one missing value (9 percent missing). -/
def exColA : Col :=
  mkCol "a" [some (.num 0), some (.num 1), some (.num 2), some (.num 3), some (.num 4),
    some (.num 5), some (.num 6), some (.num 7), some (.num 8), some (.num 9), none]

/-- Eleven rows, ten missing values (more than 90 percent missing). -/
def exColB : Col :=
  mkCol "b" [some (.num 1), none, none, none, none, none, none, none, none, none, none]

/-- The two-column frame of the missing-value counterexample. -/
def exDfC2 : Frame := [exColA, exColB]

instance : ∀ (df : Frame) (cats : List String), Decidable (encodeNamesOk df cats) :=
  fun df cats => by
    unfold encodeNamesOk; infer_instance

/-- A numeric target column and one low-cardinality object column, used
to witness the encoding theorem. -/
def exDfC3 : Frame :=
  [mkCol "t" [some (.num 0), some (.num 1), some (.num 2)],
   mkCol "c" [some (.str "x"), some (.str "x"), none]]

/-! ## Theorems -/

/-! ### Generic list lemmas -/

theorem lookup_append_of_some {β : Type} (k : String) (l₁ l₂ : List (String × β)) (v : β)
    (h : List.lookup k l₁ = some v) : List.lookup k (l₁ ++ l₂) = some v := by
  induction l₁ with
  | nil => simp [List.lookup] at h
  | cons p t ih =>
    rw [List.cons_append]
    rw [List.lookup] at h ⊢
    cases hk : (k == p.1) with
    | true => rw [hk] at h; exact h
    | false => rw [hk] at h; exact ih h

theorem lookup_append_of_none {β : Type} (k : String) (l₁ l₂ : List (String × β))
    (h : List.lookup k l₁ = none) : List.lookup k (l₁ ++ l₂) = List.lookup k l₂ := by
  induction l₁ with
  | nil => simp
  | cons p t ih =>
    rw [List.cons_append]
    rw [List.lookup] at h ⊢
    cases hk : (k == p.1) with
    | true => rw [hk] at h; exact Option.noConfusion h
    | false => rw [hk] at h; exact ih h

/-! ### Lemmas on sanitize_for_json -/

mutual

theorem sanitize_jsonSafe : ∀ v : PyVal, jsonSafe (sanitize_for_json v) = true
  | .dict kvs => by
    rw [sanitize_for_json, jsonSafe]
    exact sanitizeDict_jsonSafe kvs
  | .lst l => by
    rw [sanitize_for_json, jsonSafe]
    exact sanitizeList_jsonSafe l
  | .npInt _ => rfl
  | .npFloat (.fin _) => rfl
  | .npFloat .nan => rfl
  | .npFloat .inf => rfl
  | .npFloat .ninf => rfl
  | .pyFloat (.fin _) => rfl
  | .pyFloat .nan => rfl
  | .pyFloat .inf => rfl
  | .pyFloat .ninf => rfl
  | .pyNone => rfl
  | .pyBool _ => rfl
  | .pyInt _ => rfl
  | .pyStr _ => rfl

theorem sanitizeDict_jsonSafe : ∀ l : List (String × PyVal), jsonSafeDict (sanitizeDict l) = true
  | [] => rfl
  | (k, v) :: t => by
    rw [sanitizeDict, jsonSafeDict, sanitize_jsonSafe v, sanitizeDict_jsonSafe t]
    rfl

theorem sanitizeList_jsonSafe : ∀ l : List PyVal, jsonSafeList (sanitizeList l) = true
  | [] => rfl
  | v :: t => by
    rw [sanitizeList, jsonSafeList, sanitize_jsonSafe v, sanitizeList_jsonSafe t]
    rfl

end

mutual

theorem sanitize_shape : ∀ v : PyVal, shapeOf (sanitize_for_json v) = shapeOf v
  | .dict kvs => by
    rw [sanitize_for_json, shapeOf, shapeOf, sanitizeShapeDict kvs]
  | .lst l => by
    rw [sanitize_for_json, shapeOf, shapeOf, sanitizeShapeList l]
  | .npInt _ => rfl
  | .npFloat (.fin _) => rfl
  | .npFloat .nan => rfl
  | .npFloat .inf => rfl
  | .npFloat .ninf => rfl
  | .pyFloat (.fin _) => rfl
  | .pyFloat .nan => rfl
  | .pyFloat .inf => rfl
  | .pyFloat .ninf => rfl
  | .pyNone => rfl
  | .pyBool _ => rfl
  | .pyInt _ => rfl
  | .pyStr _ => rfl

theorem sanitizeShapeDict : ∀ l : List (String × PyVal), shapeDict (sanitizeDict l) = shapeDict l
  | [] => rfl
  | (k, v) :: t => by
    rw [sanitizeDict, shapeDict, shapeDict, sanitize_shape v, sanitizeShapeDict t]

theorem sanitizeShapeList : ∀ l : List PyVal, shapeList (sanitizeList l) = shapeList l
  | [] => rfl
  | v :: t => by
    rw [sanitizeList, shapeList, shapeList, sanitize_shape v, sanitizeShapeList t]

end

/-- Everything the trainer entry point prints is JSON safe: the error
dicts hold only strings and booleans, and the training results pass
through sanitize_for_json. -/
theorem runTrainerInput_jsonSafe (o : MLOracle) (f : Flags) (r : ParseResult) :
    jsonSafe (runTrainerInput o f r).printed = true := by
  cases r with
  | bad m => rfl
  | good fields =>
    rw [runTrainerInput]
    cases List.lookup "data" fields with
    | none => rfl
    | some d =>
      cases List.lookup "algorithm" fields with
      | none => rfl
      | some a =>
        cases List.lookup "target_column" fields with
        | none => rfl
        | some t => exact sanitize_jsonSafe _

/-- C6: sanitize_for_json keeps the nesting shape, replaces every NaN or
infinite float (Python float or numpy scalar) at any depth by None,
turns every remaining numpy scalar into a Python float, leaves every
other value unchanged, and its output contains no NaN or Infinity
anywhere; hence everything main prints is free of NaN and Infinity
tokens. -/
theorem C6_sanitize_json :
    (∀ v : PyVal, jsonSafe (sanitize_for_json v) = true)
    ∧ (∀ v : PyVal, shapeOf (sanitize_for_json v) = shapeOf v)
    ∧ (∀ n : ℤ, sanitize_for_json (.npInt n) = .pyFloat (.fin (n : ℚ)))
    ∧ (∀ q : ℚ, sanitize_for_json (.npFloat (.fin q)) = .pyFloat (.fin q))
    ∧ sanitize_for_json (.npFloat .nan) = .pyNone
    ∧ sanitize_for_json (.npFloat .inf) = .pyNone
    ∧ sanitize_for_json (.npFloat .ninf) = .pyNone
    ∧ (∀ q : ℚ, sanitize_for_json (.pyFloat (.fin q)) = .pyFloat (.fin q))
    ∧ sanitize_for_json (.pyFloat .nan) = .pyNone
    ∧ sanitize_for_json (.pyFloat .inf) = .pyNone
    ∧ sanitize_for_json (.pyFloat .ninf) = .pyNone
    ∧ (∀ s, sanitize_for_json (.pyStr s) = .pyStr s)
    ∧ (∀ b, sanitize_for_json (.pyBool b) = .pyBool b)
    ∧ (∀ n : ℤ, sanitize_for_json (.pyInt n) = .pyInt n)
    ∧ sanitize_for_json .pyNone = .pyNone
    ∧ (∀ kvs, sanitize_for_json (.dict kvs)
        = .dict (kvs.map (fun kv => (kv.1, sanitize_for_json kv.2))))
    ∧ (∀ l, sanitize_for_json (.lst l) = .lst (l.map sanitize_for_json))
    ∧ (∀ (o : MLOracle) (f : Flags) (argv : List String) (stdin arg1 : ParseResult),
        jsonSafe (mainTrainer o f argv stdin arg1).printed = true) := by
  have hdict : ∀ kvs : List (String × PyVal),
      sanitizeDict kvs = kvs.map (fun kv => (kv.1, sanitize_for_json kv.2)) := by
    intro kvs
    induction kvs with
    | nil => rfl
    | cons p t ih => cases p; rw [sanitizeDict, ih]; rfl
  have hlist : ∀ l : List PyVal, sanitizeList l = l.map sanitize_for_json := by
    intro l
    induction l with
    | nil => rfl
    | cons v t ih => rw [sanitizeList, ih]; rfl
  refine ⟨sanitize_jsonSafe, sanitize_shape, fun _ => rfl, fun _ => rfl, rfl, rfl, rfl,
    fun _ => rfl, rfl, rfl, rfl, fun _ => rfl, fun _ => rfl, fun _ => rfl, rfl,
    ?_, ?_, ?_⟩
  · intro kvs; rw [sanitize_for_json, hdict]
  · intro l; rw [sanitize_for_json, hlist]
  · intro o f argv stdin arg1
    rw [mainTrainer]
    by_cases h1 : argv.length == 1
    · rw [if_pos h1]; exact runTrainerInput_jsonSafe o f stdin
    · rw [if_neg h1]
      by_cases h2 : argv.length == 2
      · rw [if_pos h2]; exact runTrainerInput_jsonSafe o f arg1
      · rw [if_neg h2]; rfl

/-! ### C1: classification versus regression -/

theorem toNumericCell_ne_none_of_isNum (x : Cell) (h : cellIsNum x = true) :
    toNumericCell x ≠ none := by
  cases x with
  | none => simp [cellNum?, cellIsNum] at h
  | some v =>
    cases v with
    | num q => simp [toNumericCell]
    | str s => simp [cellNum?, cellIsNum] at h

/-- C1 counterexample: a numeric target with two distinct values (at most
20) is typed regression by both trainers, against the claim that at most
20 unique target values always give classification. -/
theorem C1_counterexample :
    task_type_of (mkCol "t" [some (.num 0), some (.num 1)]) = "regression"
    ∧ task_type_of_production (mkCol "t" [some (.num 0), some (.num 1)]) = "regression"
    ∧ (valsOf (mkCol "t" [some (.num 0), some (.num 1)])).dedup.length = 2 := by
  refine ⟨?_, ?_, by decide⟩ <;> decide

/-- C1 amended: preprocess_data types the task classification exactly
when the target has at most 20 distinct non-missing values and is an
object column that stays object after the numeric-coercion attempt
(that is, no cell is numeric or numeric-parsable); in the production
variant, exactly when it has at most 20 distinct non-missing values and
object dtype.  Otherwise the task is regression. -/
theorem C1_task_type_amended (y : Col) (h : y.numeric = inferNumeric y.cells) :
    (task_type_of y = "classification"
      ↔ ((valsOf y).dedup.length ≤ 20 ∧ ∀ x ∈ y.cells, toNumericCell x = none))
    ∧ (task_type_of y = "regression" ∨ task_type_of y = "classification")
    ∧ (task_type_of_production y = "classification"
      ↔ ((valsOf y).dedup.length ≤ 20 ∧ y.numeric = false))
    ∧ (task_type_of_production y = "regression" ∨ task_type_of_production y = "classification") := by
  have hnumAll : y.numeric = true → ¬ (∀ x ∈ y.cells, toNumericCell x = none) := by
    intro hy hall
    rw [h] at hy
    have h1 : y.cells.any cellIsNum = true := by
      have h2 := hy
      unfold inferNumeric at h2
      rw [Bool.and_eq_true] at h2
      exact h2.1
    obtain ⟨x, hx, hxn⟩ := List.any_eq_true.mp h1
    exact toNumericCell_ne_none_of_isNum x hxn (hall x hx)
  have hconv : ∀ (hn : y.numeric = false),
      (¬ (y.cells.map toNumericCell).any cellPresent = true)
        → targetAfterConversion y = y := by
    intro hn hno
    unfold targetAfterConversion
    rw [hn]
    simp only [Bool.false_eq_true, if_false]
    rw [if_neg hno]
  have hallIff : ((y.cells.map toNumericCell).any cellPresent = false)
      ↔ (∀ x ∈ y.cells, toNumericCell x = none) := by
    rw [← Bool.not_eq_true, List.any_eq_true]
    constructor
    · intro hno x hx
      by_contra hne
      exact hno ⟨toNumericCell x, List.mem_map_of_mem _ hx, by
        cases hcv : toNumericCell x with
        | none => exact absurd hcv hne
        | some v => rfl⟩
    · rintro hall ⟨z, hz, hzp⟩
      obtain ⟨x, hx, rfl⟩ := List.mem_map.mp hz
      rw [hall x hx] at hzp
      exact Bool.noConfusion hzp
  refine ⟨⟨?_, ?_⟩, ?_, ⟨?_, ?_⟩, ?_⟩
  · -- ml iff, forward direction
    intro hcl
    unfold task_type_of at hcl
    by_cases hc : ((valsOf (targetAfterConversion y)).dedup.length ≤ 20
        ∧ (targetAfterConversion y).numeric = false)
    · -- classification branch taken: the conversion kept an object target
      have hyn : y.numeric = false := by
        by_contra hyn
        have hyn' : y.numeric = true := eq_true_of_ne_false hyn
        have heq : targetAfterConversion y = y := by
          unfold targetAfterConversion; rw [hyn']; simp
        rw [heq] at hc
        rw [hc.2] at hyn'
        exact Bool.noConfusion hyn'
      by_cases hany : (y.cells.map toNumericCell).any cellPresent = true
      · exfalso
        have hnum : (targetAfterConversion y).numeric = true := by
          unfold targetAfterConversion
          rw [hyn]
          simp only [Bool.false_eq_true, if_false]
          rw [if_pos hany]
        rw [hc.2] at hnum
        exact Bool.noConfusion hnum
      · have heq := hconv hyn hany
        rw [heq] at hc
        exact ⟨hc.1, hallIff.mp (Bool.not_eq_true _ ▸ hany)⟩
    · rw [if_neg hc] at hcl
      exact absurd hcl (by decide)
  · -- ml iff, reverse direction
    rintro ⟨h20, hall⟩
    have hyn : y.numeric = false := by
      by_contra hyn
      exact hnumAll (eq_true_of_ne_false hyn) hall
    have hany : ¬ (y.cells.map toNumericCell).any cellPresent = true := by
      rw [Bool.not_eq_true]
      exact hallIff.mpr hall
    have heq := hconv hyn hany
    unfold task_type_of
    rw [heq, if_pos ⟨h20, hyn⟩]
  · -- ml totality
    unfold task_type_of
    by_cases hc : ((valsOf (targetAfterConversion y)).dedup.length ≤ 20
        ∧ (targetAfterConversion y).numeric = false)
    · right; rw [if_pos hc]
    · left; rw [if_neg hc]
  · -- production iff, forward direction
    intro hcl
    unfold task_type_of_production at hcl
    by_cases hc : ((valsOf y).dedup.length ≤ 20 ∧ y.numeric = false)
    · exact hc
    · rw [if_neg hc] at hcl
      exact absurd hcl (by decide)
  · -- production iff, reverse direction
    intro hc
    unfold task_type_of_production
    rw [if_pos hc]
  · -- production totality
    unfold task_type_of_production
    by_cases hc : ((valsOf y).dedup.length ≤ 20 ∧ y.numeric = false)
    · right; rw [if_pos hc]
    · left; rw [if_neg hc]

/-- C1 amended, witnessed at a two-value string target: the ml-path
trainer types it classification. -/
theorem C1_task_type_amended_witness :
    task_type_of (mkCol "t" [some (.str "a"), some (.str "b")]) = "classification" :=
  ((C1_task_type_amended (mkCol "t" [some (.str "a"), some (.str "b")]) rfl).1).mpr
    (by decide)

/-! ### C7: heterogeneous ingestion -/

/-- C7 counterexample: an empty data dict passes the vacuous all-lists
test, so it raises the later No-valid-data error; the
Empty-data-dictionary branch of line 140 cannot fire. -/
theorem C7_counterexample :
    ingestClean (.dct []) = .error "No valid data found after cleaning"
    ∧ ingestClean (.dct []) ≠ .error "Empty data dictionary provided" := by
  refine ⟨rfl, ?_⟩
  intro h
  have h1 : ingestClean (.dct []) = .error "No valid data found after cleaning" := rfl
  rw [h1] at h
  exact absurd (Except.error.inj h) (by decide)

/-- C7 amended: preprocess_data accepts a dict of equal-length lists as a
column frame, a dict with at least one non-list value as padded records,
and a list of records; a bare scalar or null raises the
Unsupported-data-format error and train_model then returns a failure
result; an empty dict, however, raises No-valid-data-found-after-cleaning
(not Empty-data-dictionary, whose branch is unreachable). -/
theorem C7_ingestion_amended :
    (∀ (kvs : List (String × DEntry)) (n : Nat), kvs ≠ [] →
       (∀ kv ∈ kvs, entryIsList kv.2 = true) →
       (∀ kv ∈ kvs, (entryCells kv.2).length = n) →
       ingest (.dct kvs) = .ok (kvs.map (fun kv => mkCol kv.1 (entryCells kv.2))))
    ∧ (∀ kvs : List (String × DEntry), (∃ kv ∈ kvs, entryIsList kv.2 = false) →
       ingest (.dct kvs) = .ok (dctRecordsFrame kvs))
    ∧ (∀ records, ingest (.recs records) = .ok (recsFrame records))
    ∧ (∀ v, ingest (.scl v) = .error ("Unsupported data format: " ++ pyTypeName (.scl v)))
    ∧ ingest .pynull = .error ("Unsupported data format: " ++ pyTypeName .pynull)
    ∧ ingestClean (.dct []) = .error "No valid data found after cleaning"
    ∧ (∀ (o : MLOracle) (f : Flags) (v : Val) (alg tgt : String),
        List.lookup "success" (train_model o f (.scl v) alg tgt) = some (.pyBool false)
        ∧ ∃ s, List.lookup "error" (train_model o f (.scl v) alg tgt) = some (.pyStr s)) := by
  refine ⟨?_, ?_, fun _ => rfl, fun _ => rfl, rfl, rfl, ?_⟩
  · intro kvs n hne hlists hlens
    rw [ingest]
    rw [if_pos (List.all_eq_true.mpr hlists)]
    cases kvs with
    | nil => exact absurd rfl hne
    | cons p t =>
      rw [dfFromDictOfLists]
      rw [if_pos]
      exact List.all_eq_true.mpr (fun kv hkv => by
        have h1 := hlens kv (List.mem_cons_of_mem p hkv)
        have h2 := hlens p (List.mem_cons_self p t)
        rw [h1, h2]
        exact beq_self_eq_true n)
  · intro kvs hex
    obtain ⟨kv, hkv, hflag⟩ := hex
    rw [ingest]
    rw [if_neg]
    · rw [if_neg]
      intro hemp
      rw [List.isEmpty_eq_true] at hemp
      rw [hemp] at hkv
      exact List.not_mem_nil kv hkv
    · intro hall
      have h1 := List.all_eq_true.mp hall kv hkv
      rw [hflag] at h1
      exact Bool.noConfusion h1
  · intro o f v alg tgt
    rw [train_model]
    by_cases h1 : (alg == "k_means") = true
    · rw [if_pos h1]
      exact ⟨rfl, ⟨_, rfl⟩⟩
    · rw [if_neg h1]
      by_cases h2 : (alg == "auto_ml") = true
      · rw [if_pos h2]
        exact ⟨rfl, ⟨_, rfl⟩⟩
      · rw [if_neg h2]
        exact ⟨rfl, ⟨_, rfl⟩⟩

/-- C7 amended, witnessed on a one-column dict of lists. -/
theorem C7_ingestion_amended_witness :
    ingest (.dct [("a", .lste [some (.num 1), none])])
      = .ok [mkCol "a" [some (.num 1), none]] :=
  C7_ingestion_amended.1 [("a", .lste [some (.num 1), none])] 2
    (by decide) (by decide) (by decide)

/-! ### C8: the command-line entry point -/

/-- C8: with no arguments main reads from stdin, with exactly one it
reads that argument, with two or more it prints a usage-error JSON
object and exits 1; malformed JSON yields an Invalid-JSON-input error
object with success false and exit 1; a missing data, algorithm or
target_column field yields a Missing-required-field error object and
exit 1. -/
theorem C8_entry_point :
    (∀ (o : MLOracle) (f : Flags) (argv : List String) (stdin arg1 : ParseResult),
       argv.length = 1 → mainTrainer o f argv stdin arg1 = runTrainerInput o f stdin)
    ∧ (∀ (o : MLOracle) (f : Flags) (argv : List String) (stdin arg1 : ParseResult),
       argv.length = 2 → mainTrainer o f argv stdin arg1 = runTrainerInput o f arg1)
    ∧ (∀ (o : MLOracle) (f : Flags) (argv : List String) (stdin arg1 : ParseResult),
       3 ≤ argv.length →
       mainTrainer o f argv stdin arg1
         = ⟨.dict [("error", .pyStr "Usage: python authentic-trainer.py <json_input> OR pipe JSON data")], 1⟩)
    ∧ (∀ (o : MLOracle) (f : Flags) (m : String),
       runTrainerInput o f (.bad m)
         = ⟨.dict [("error", .pyStr ("Invalid JSON input: " ++ m)), ("success", .pyBool false)], 1⟩)
    ∧ (∀ (o : MLOracle) (f : Flags) (fields : List (String × PyData)),
       List.lookup "data" fields = none →
       runTrainerInput o f (.good fields) = ⟨missingFieldDict "data", 1⟩)
    ∧ (∀ (o : MLOracle) (f : Flags) (fields : List (String × PyData)) (d : PyData),
       List.lookup "data" fields = some d →
       List.lookup "algorithm" fields = none →
       runTrainerInput o f (.good fields) = ⟨missingFieldDict "algorithm", 1⟩)
    ∧ (∀ (o : MLOracle) (f : Flags) (fields : List (String × PyData)) (d a : PyData),
       List.lookup "data" fields = some d →
       List.lookup "algorithm" fields = some a →
       List.lookup "target_column" fields = none →
       runTrainerInput o f (.good fields) = ⟨missingFieldDict "target_column", 1⟩) := by
  refine ⟨?_, ?_, ?_, fun _ _ _ => rfl, ?_, ?_, ?_⟩
  · intro o f argv stdin arg1 h
    rw [mainTrainer, if_pos]
    rw [h]; decide
  · intro o f argv stdin arg1 h
    rw [mainTrainer, if_neg, if_pos]
    · rw [h]; decide
    · rw [h]; decide
  · intro o f argv stdin arg1 h
    rw [mainTrainer, if_neg, if_neg]
    · intro hb; rw [beq_iff_eq] at hb; omega
    · intro hb; rw [beq_iff_eq] at hb; omega
  · intro o f fields h
    rw [runTrainerInput, h]
  · intro o f fields d h1 h2
    rw [runTrainerInput, h1, h2]
  · intro o f fields d a h1 h2 h3
    rw [runTrainerInput, h1, h2, h3]

/-- C8 witnessed: three argv entries (two user arguments) produce the
usage error and exit status 1. -/
theorem C8_entry_point_witness :
    mainTrainer oracle0 ⟨false, false, false⟩ ["prog", "a", "b"] (.bad "x") (.bad "x")
      = ⟨.dict [("error", .pyStr "Usage: python authentic-trainer.py <json_input> OR pipe JSON data")], 1⟩ :=
  C8_entry_point.2.2.1 oracle0 ⟨false, false, false⟩ ["prog", "a", "b"]
    (.bad "x") (.bad "x") (by decide)

/-! ### C9: no exception propagation -/

theorem train_clustering_resultOk (o : MLOracle) (d : PyData) (alg : String) :
    resultOk (train_clustering_model o d alg) := by
  rw [train_clustering_model]
  cases hx : clusteringX o.scale d with
  | error e => exact Or.inr ⟨rfl, ⟨e, rfl⟩⟩
  | ok X =>
    cases hl : clustering_models.lookup alg with
    | none => exact Or.inr ⟨rfl, ⟨_, rfl⟩⟩
    | some m => exact Or.inl rfl

theorem train_auto_ml_resultOk (o : MLOracle) (d : PyData) (tgt : String) :
    resultOk (train_auto_ml o d tgt) := by
  rw [train_auto_ml]
  cases hp : preprocess_data o.scale d tgt with
  | error e => exact Or.inr ⟨rfl, ⟨e, rfl⟩⟩
  | ok p =>
    dsimp only
    by_cases ht : (p.task == "regression") = true
    · rw [ht]; exact Or.inl rfl
    · rw [Bool.not_eq_true] at ht; rw [ht]; exact Or.inl rfl

theorem train_model_resultOk (o : MLOracle) (f : Flags) (d : PyData) (alg tgt : String) :
    resultOk (train_model o f d alg tgt) := by
  rw [train_model]
  by_cases h1 : (alg == "k_means") = true
  · rw [if_pos h1]; exact train_clustering_resultOk o d alg
  · rw [if_neg h1]
    by_cases h2 : (alg == "auto_ml") = true
    · rw [if_pos h2]; exact train_auto_ml_resultOk o d tgt
    · rw [if_neg h2]
      cases hp : preprocess_data o.scale d tgt with
      | error e => exact Or.inr ⟨rfl, ⟨e, rfl⟩⟩
      | ok p =>
        dsimp only
        by_cases ht : (p.task == "regression") = true
        all_goals first
          | rw [ht]
          | (rw [Bool.not_eq_true] at ht; rw [ht])
        all_goals
          cases hm : List.lookup (selectName (modelsFor f p.task) alg) (modelsFor f p.task) with
          | none => exact Or.inl rfl
          | some m => cases m <;> exact Or.inl rfl

theorem clean_data_resultOk (zstep : Frame → Frame) (knn : String → Nat → ℚ)
    (d : PyData) (opts : CleanOptions) : resultOk (clean_data zstep knn d opts) := by
  rw [clean_data]
  cases ht : toDFClean d with
  | error e => exact Or.inr ⟨rfl, ⟨e, rfl⟩⟩
  | ok df0 => exact Or.inl rfl

/-- C9: none of the top-level operations propagates an exception: every
result dict carries the success key, every failure carries success false
with an error string, and the normal path carries success true. -/
theorem C9_no_exception_propagation :
    ∀ (o : MLOracle) (f : Flags) (d : PyData) (alg tgt : String)
      (zstep : Frame → Frame) (knn : String → Nat → ℚ) (opts : CleanOptions),
      resultOk (train_model o f d alg tgt)
      ∧ resultOk (train_clustering_model o d alg)
      ∧ resultOk (train_auto_ml o d tgt)
      ∧ resultOk (clean_data zstep knn d opts) :=
  fun o f d alg tgt zstep knn opts =>
    ⟨train_model_resultOk o f d alg tgt, train_clustering_resultOk o d alg,
     train_auto_ml_resultOk o d tgt, clean_data_resultOk zstep knn d opts⟩

/-! ### C10: missing-target fallback -/

theorem findCol_isSome_of_mem (df : Frame) (c : Col) (hc : c ∈ df) :
    (findCol df c.name).isSome = true := by
  rw [findCol, List.find?_isSome]
  exact ⟨c, hc, by rw [beq_iff_eq]⟩

theorem chooseTarget_cases (df : Frame) (tgt : String) :
    chooseTarget df tgt = tgt ∨ ∃ c ∈ df, chooseTarget df tgt = c.name := by
  rw [chooseTarget]
  by_cases h1 : (findCol df tgt).isSome = true
  · left; rw [if_pos h1]
  · rw [if_neg h1]
    cases hf : firstNumericName df with
    | some n =>
      obtain ⟨c, hc, hcn⟩ : ∃ c, df.find? (fun c => c.numeric) = some c ∧ c.name = n := by
        rw [firstNumericName] at hf
        cases hfind : df.find? (fun c => c.numeric) with
        | none => rw [hfind] at hf; exact Option.noConfusion hf
        | some c => rw [hfind] at hf; exact ⟨c, rfl, Option.some.inj hf⟩
      right
      exact ⟨c, List.mem_of_find?_eq_some hc, hcn.symm⟩
    | none =>
      cases hl : (names df).getLast? with
      | none => left; rfl
      | some m =>
        have hmem : m ∈ names df := by
          obtain ⟨hne, heq⟩ := @List.mem_getLast?_eq_getLast String (names df) m
            (by rw [Option.mem_def]; exact hl)
          rw [heq]
          exact List.getLast_mem hne
        obtain ⟨c, hc, hcn⟩ := List.mem_map.mp (by rw [names] at hmem; exact hmem)
        right
        exact ⟨c, hc, hcn.symm⟩

theorem chooseTarget_idem (df : Frame) (tgt : String) :
    chooseTarget df (chooseTarget df tgt) = chooseTarget df tgt := by
  cases chooseTarget_cases df tgt with
  | inl h => rw [h]; exact h
  | inr h =>
    obtain ⟨c, hc, h⟩ := h
    rw [h, chooseTarget, if_pos (findCol_isSome_of_mem df c hc)]

/-- C10: when the requested target column is absent, preprocess_data
silently retargets to the first numeric column, or the last column when
none is numeric; preprocessing behaves exactly as with the fallback
target; and train_model reports the originally requested name under
target_column on every non-clustering path. -/
theorem C10_target_fallback :
    (∀ (df : Frame) (tgt : String), findCol df tgt = none →
       (∀ c : Col, df.find? (fun c => c.numeric) = some c → chooseTarget df tgt = c.name)
       ∧ (df.find? (fun c => c.numeric) = none →
          chooseTarget df tgt = ((names df).getLast?).getD tgt))
    ∧ (∀ (scale : List (List ℚ) → List (List ℚ)) (df : Frame) (tgt : String),
       preprocessFrame scale df tgt = preprocessFrame scale df (chooseTarget df tgt))
    ∧ (∀ (o : MLOracle) (f : Flags) (d : PyData) (alg tgt : String),
       (alg == "k_means") = false →
       List.lookup "target_column" (train_model o f d alg tgt) = some (.pyStr tgt)) := by
  refine ⟨?_, ?_, ?_⟩
  · intro df tgt hmiss
    have hnone : ¬ (findCol df tgt).isSome = true := by rw [hmiss]; decide
    constructor
    · intro c hc
      rw [chooseTarget, if_neg hnone, firstNumericName, hc]
      rfl
    · intro hnum
      rw [chooseTarget, if_neg hnone, firstNumericName, hnum]
      rfl
  · intro scale df tgt
    conv_rhs => rw [preprocessFrame]
    rw [chooseTarget_idem]
    rw [preprocessFrame]
  · intro o f d alg tgt h1
    rw [train_model, if_neg (by rw [h1]; decide)]
    by_cases h2 : (alg == "auto_ml") = true
    · rw [if_pos h2, train_auto_ml]
      cases hp : preprocess_data o.scale d tgt with
      | error e => rfl
      | ok p =>
        dsimp only
        by_cases ht : (p.task == "regression") = true
        · rw [ht]; rfl
        · rw [Bool.not_eq_true] at ht; rw [ht]; rfl
    · rw [if_neg h2]
      cases hp : preprocess_data o.scale d tgt with
      | error e => rfl
      | ok p => rfl

/-- C10 witnessed: a frame with a string column and a numeric column and
an absent target name falls back to the numeric column. -/
theorem C10_target_fallback_witness :
    chooseTarget [mkCol "a" [some (.str "x"), some (.str "y")],
                  mkCol "b" [some (.num 1), some (.num 2)]] "zzz"
      = (mkCol "b" [some (.num 1), some (.num 2)]).name :=
  (C10_target_fallback.1
      [mkCol "a" [some (.str "x"), some (.str "y")], mkCol "b" [some (.num 1), some (.num 2)]]
      "zzz" (by decide)).1
    (mkCol "b" [some (.num 1), some (.num 2)]) (by decide)

/-! ### C5: the estimator registry -/

theorem mem_of_lookup_eq_some {β : Type} (k : String) (l : List (String × β)) (v : β)
    (h : List.lookup k l = some v) : (k, v) ∈ l := by
  induction l with
  | nil => exact Option.noConfusion h
  | cons p t ih =>
    rw [List.lookup] at h
    cases hk : (k == p.1) with
    | true =>
      rw [hk] at h
      have hv : p.2 = v := Option.some.inj h
      have hkk : k = p.1 := beq_iff_eq.mp hk
      have hpe : (k, v) = p := by rw [hkk, ← hv]
      rw [hpe]
      exact List.mem_cons_self p t
    | false =>
      rw [hk] at h
      exact List.mem_cons_of_mem p (ih h)

theorem lookup_random_forest (f : Flags) :
    List.lookup "random_forest" (regression_models f) = some (.randomForestRegressor 100 42)
    ∧ List.lookup "random_forest" (classification_models f)
        = some (.randomForestClassifier 100 42) := by
  obtain ⟨x, l, c⟩ := f
  cases x <;> cases l <;> cases c <;> exact ⟨rfl, rfl⟩

theorem selectName_lookup_some (f : Flags) (task alg : String) :
    ∃ m : Estimator,
      List.lookup (selectName (modelsFor f task) alg) (modelsFor f task) = some m
      ∧ (selectName (modelsFor f task) alg, m) ∈ modelsFor f task := by
  by_cases ha : (List.lookup alg (modelsFor f task)).isSome = true
  · obtain ⟨m, hm⟩ := Option.isSome_iff_exists.mp ha
    exact ⟨m, by rw [selectName, if_pos ha, hm],
      mem_of_lookup_eq_some _ _ _ (by rw [selectName, if_pos ha, hm])⟩
  · have hsel : selectName (modelsFor f task) alg = "random_forest" := by
      rw [selectName, if_neg ha]
    rw [hsel, modelsFor]
    by_cases ht : task = "regression"
    · rw [if_pos ht]
      exact ⟨_, (lookup_random_forest f).1,
        mem_of_lookup_eq_some _ _ _ (lookup_random_forest f).1⟩
    · rw [if_neg ht]
      exact ⟨_, (lookup_random_forest f).2,
        mem_of_lookup_eq_some _ _ _ (lookup_random_forest f).2⟩

/-- C5 counterexample: requesting k_means fits the KMeans estimator of
the clustering registry, although k_means is in neither supervised
registry and the fitted model is not the registry random_forest entry;
so an unregistered name does not always fall back to random_forest. -/
theorem C5_counterexample :
    fittedEstimators oracle0 ⟨false, false, false⟩
        (.dct [("a", .lste [some (.num 1), some (.num 2), some (.num 3)]),
               ("b", .lste [some (.num 4), some (.num 5), some (.num 6)])])
        "k_means" "y" = [.kMeans 3 42]
    ∧ List.lookup "k_means" (regression_models ⟨false, false, false⟩) = none
    ∧ List.lookup "k_means" (classification_models ⟨false, false, false⟩) = none
    ∧ Estimator.kMeans 3 42 ∉ (regression_models ⟨false, false, false⟩).map Prod.snd
    ∧ Estimator.kMeans 3 42 ∉ (classification_models ⟨false, false, false⟩).map Prod.snd := by
  exact ⟨rfl, rfl, rfl, by decide, by decide⟩

/-- C5 amended: for every algorithm name other than the special
dispatches k_means and auto_ml, the estimator train_model fits is the
registry entry for the determined task type under the requested name,
falling back to the registry random_forest entry when the name is not
registered; the selection itself can never fail. -/
theorem C5_registry_amended :
    ∀ (f : Flags) (task alg : String),
      alg ≠ "k_means" → alg ≠ "auto_ml" →
      (∃ m : Estimator,
         List.lookup (selectName (modelsFor f task) alg) (modelsFor f task) = some m
         ∧ (selectName (modelsFor f task) alg, m) ∈ modelsFor f task)
      ∧ (List.lookup alg (modelsFor f task) = none →
         selectName (modelsFor f task) alg = "random_forest")
      ∧ (∀ (o : MLOracle) (d : PyData) (tgt : String) (p : PreOut),
         preprocess_data o.scale d tgt = .ok p →
         fittedEstimators o f d alg tgt
           = (List.lookup (selectName (modelsFor f p.task) alg) (modelsFor f p.task)).toList
         ∧ fittedEstimators o f d alg tgt ≠ []) := by
  intro f task alg hk ha
  refine ⟨selectName_lookup_some f task alg, ?_, ?_⟩
  · intro hnone
    rw [selectName, if_neg]
    rw [hnone]
    decide
  · intro o d tgt p hp
    have hk' : (alg == "k_means") = false := beq_eq_false_iff_ne.mpr hk
    have ha' : (alg == "auto_ml") = false := beq_eq_false_iff_ne.mpr ha
    have heq : fittedEstimators o f d alg tgt
        = (List.lookup (selectName (modelsFor f p.task) alg) (modelsFor f p.task)).toList := by
      rw [fittedEstimators, hk', ha', hp]
      rfl
    refine ⟨heq, ?_⟩
    obtain ⟨m, hm, _⟩ := selectName_lookup_some f p.task alg
    rw [heq, hm]
    exact List.cons_ne_nil m []

/-- C5 amended, witnessed: an unknown name over a numeric regression
dataset selects the random_forest registry entry. -/
theorem C5_registry_amended_witness :
    selectName (modelsFor ⟨false, false, false⟩ "regression") "no_such_algo"
      = "random_forest" :=
  (C5_registry_amended ⟨false, false, false⟩ "regression" "no_such_algo"
      (by decide) (by decide)).2.1 (by decide)

/-! ### C4: outlier capping -/

theorem sorted_get?_le (s : List ℚ) (hs : s.Sorted (· ≤ ·)) (i j : Nat) (hij : i ≤ j)
    (a b : ℚ) (ha : s.get? i = some a) (hb : s.get? j = some b) : a ≤ b := by
  obtain ⟨hi, hga⟩ := List.get?_eq_some.mp ha
  obtain ⟨hj, hgb⟩ := List.get?_eq_some.mp hb
  rw [← hga, ← hgb]
  exact hs.rel_get_of_le (Fin.mk_le_mk.mpr hij)

theorem quantileQ_mono (l : List ℚ) (q q' : ℚ) (h0 : 0 ≤ q) (hqq : q ≤ q') (h1 : q' ≤ 1)
    (a b : ℚ) (ha : quantileQ l q = some a) (hb : quantileQ l q' = some b) : a ≤ b := by
  rw [quantileQ] at ha hb
  have hs : (l.insertionSort (· ≤ ·)).Sorted (· ≤ ·) := List.sorted_insertionSort _ l
  set s := l.insertionSort (· ≤ ·) with hsdef
  by_cases hn : s.length = 0
  · rw [if_pos hn] at ha; exact Option.noConfusion ha
  rw [if_neg hn] at ha hb
  dsimp only at ha hb
  have hn1 : 1 ≤ s.length := Nat.one_le_iff_ne_zero.mpr hn
  set n := s.length with hndef
  set H : ℚ := ((n : ℚ) - 1) * q with hH
  set H' : ℚ := ((n : ℚ) - 1) * q' with hH'
  have hn0 : (0 : ℚ) ≤ (n : ℚ) - 1 := by
    have h2 : (1 : ℚ) ≤ (n : ℚ) := by exact_mod_cast hn1
    linarith
  have hH0 : 0 ≤ H := mul_nonneg hn0 h0
  have hHH : H ≤ H' := mul_le_mul_of_nonneg_left hqq hn0
  have hH'le : H' ≤ (n : ℚ) - 1 := by
    calc H' ≤ ((n : ℚ) - 1) * 1 := mul_le_mul_of_nonneg_left h1 hn0
    _ = (n : ℚ) - 1 := mul_one _
  have hflmono : Int.floor H ≤ Int.floor H' := Int.floor_le_floor hHH
  have hfl0 : 0 ≤ Int.floor H := Int.floor_nonneg.mpr hH0
  have hfl0' : 0 ≤ Int.floor H' := le_trans hfl0 hflmono
  have hii' : (Int.floor H).toNat ≤ (Int.floor H').toNat := Int.toNat_le_toNat hflmono
  have hfl'le : Int.floor H' ≤ (n : ℤ) - 1 := by
    have h2 : (Int.floor H' : ℚ) ≤ (n : ℚ) - 1 := le_trans (Int.floor_le H') hH'le
    exact_mod_cast h2
  have hi'lt : (Int.floor H').toNat < n := by omega
  have hilt : (Int.floor H).toNat < n := lt_of_le_of_lt hii' hi'lt
  obtain ⟨a0, ha0⟩ : ∃ z, s.get? (Int.floor H).toNat = some z := by
    rw [List.get?_eq_get hilt]; exact ⟨_, rfl⟩
  obtain ⟨a0', ha0'⟩ : ∃ z, s.get? (Int.floor H').toNat = some z := by
    rw [List.get?_eq_get hi'lt]; exact ⟨_, rfl⟩
  rw [ha0] at ha
  rw [ha0'] at hb
  have hfr0 : 0 ≤ H - Int.floor H := sub_nonneg.mpr (Int.floor_le H)
  have hfr1 : H - Int.floor H < 1 := sub_lt_iff_lt_add.mpr (by
    have h2 := Int.lt_floor_add_one H
    push_cast at h2 ⊢
    linarith)
  have hfr0' : 0 ≤ H' - Int.floor H' := sub_nonneg.mpr (Int.floor_le H')
  by_cases heq : (Int.floor H).toNat = (Int.floor H').toNat
  · -- same base index
    have hfleq : Int.floor H = Int.floor H' := by omega
    rw [heq] at ha0
    have ha0eq : a0 = a0' := by
      rw [ha0] at ha0'; exact Option.some.inj ha0'
    cases hb1 : s.get? ((Int.floor H').toNat + 1) with
    | none =>
      rw [heq, hb1] at ha
      rw [hb1] at hb
      have e1 : a = a0 := (Option.some.inj ha).symm
      have e2 : b = a0' := (Option.some.inj hb).symm
      rw [e1, e2, ha0eq]
    | some b0 =>
      rw [heq, hb1] at ha
      rw [hb1] at hb
      have hd : a0 ≤ b0 := sorted_get?_le s hs _ _ (Nat.le_succ _) _ _ ha0 hb1
      have e1 : a = a0 + (H - Int.floor H) * (b0 - a0) := (Option.some.inj ha).symm
      have e2 : b = a0' + (H' - Int.floor H') * (b0 - a0') := (Option.some.inj hb).symm
      rw [e1, e2, ← ha0eq, ← hfleq]
      have h3 : (H - Int.floor H) * (b0 - a0) ≤ (H' - Int.floor H) * (b0 - a0) :=
        mul_le_mul_of_nonneg_right (by linarith) (by linarith)
      linarith
  · -- strictly smaller base index
    have hlt : (Int.floor H).toNat + 1 ≤ (Int.floor H').toNat := by omega
    have hb1lt : (Int.floor H).toNat + 1 < n := lt_of_le_of_lt hlt hi'lt
    obtain ⟨b0, hb0⟩ : ∃ z, s.get? ((Int.floor H).toNat + 1) = some z := by
      rw [List.get?_eq_get hb1lt]; exact ⟨_, rfl⟩
    rw [hb0] at ha
    have e1 : a = a0 + (H - Int.floor H) * (b0 - a0) := (Option.some.inj ha).symm
    have hd : a0 ≤ b0 := sorted_get?_le s hs _ _ (Nat.le_succ _) _ _ ha0 hb0
    have hab0 : a ≤ b0 := by
      rw [e1]
      have h3 : (H - Int.floor H) * (b0 - a0) ≤ 1 * (b0 - a0) :=
        mul_le_mul_of_nonneg_right hfr1.le (by linarith)
      linarith
    have hb0a0' : b0 ≤ a0' := sorted_get?_le s hs _ _ hlt _ _ hb0 ha0'
    have ha0'b : a0' ≤ b := by
      cases hb1 : s.get? ((Int.floor H').toNat + 1) with
      | none =>
        rw [hb1] at hb
        rw [(Option.some.inj hb).symm]
      | some b0' =>
        rw [hb1] at hb
        have hd' : a0' ≤ b0' := sorted_get?_le s hs _ _ (Nat.le_succ _) _ _ ha0' hb1
        have e2 : b = a0' + (H' - Int.floor H') * (b0' - a0') := (Option.some.inj hb).symm
        rw [e2]
        have h3 : 0 ≤ (H' - Int.floor H') * (b0' - a0') :=
          mul_nonneg hfr0' (by linarith)
        linarith
    linarith

theorem quantileQ_isSome (l : List ℚ) (hl : l ≠ []) (q : ℚ) (h0 : 0 ≤ q) (h1 : q ≤ 1) :
    ∃ a, quantileQ l q = some a := by
  rw [quantileQ]
  have hs : (l.insertionSort (· ≤ ·)).length = l.length := List.length_insertionSort _ l
  have hn : ¬ (l.insertionSort (· ≤ ·)).length = 0 := by
    rw [hs]
    exact fun h => hl (List.length_eq_zero.mp h)
  rw [if_neg hn]
  dsimp only
  have hn1 : 1 ≤ (l.insertionSort (· ≤ ·)).length := Nat.one_le_iff_ne_zero.mpr hn
  set n := (l.insertionSort (· ≤ ·)).length with hndef
  set H : ℚ := ((n : ℚ) - 1) * q with hH
  have hn0 : (0 : ℚ) ≤ (n : ℚ) - 1 := by
    have h2 : (1 : ℚ) ≤ (n : ℚ) := by exact_mod_cast hn1
    linarith
  have hH0 : 0 ≤ H := mul_nonneg hn0 h0
  have hHle : H ≤ (n : ℚ) - 1 := by
    calc H ≤ ((n : ℚ) - 1) * 1 := mul_le_mul_of_nonneg_left h1 hn0
    _ = (n : ℚ) - 1 := mul_one _
  have hfl0 : 0 ≤ Int.floor H := Int.floor_nonneg.mpr hH0
  have hfl'le : Int.floor H ≤ (n : ℤ) - 1 := by
    have h2 : (Int.floor H : ℚ) ≤ (n : ℚ) - 1 := le_trans (Int.floor_le H) hHle
    exact_mod_cast h2
  have hilt : (Int.floor H).toNat < n := by omega
  obtain ⟨a0, ha0⟩ : ∃ z, (l.insertionSort (· ≤ ·)).get? (Int.floor H).toNat = some z := by
    rw [List.get?_eq_get hilt]; exact ⟨_, rfl⟩
  rw [ha0]
  cases hb1 : (l.insertionSort (· ≤ ·)).get? ((Int.floor H).toNat + 1) with
  | none => exact ⟨a0, rfl⟩
  | some b0 => exact ⟨_, rfl⟩

theorem map_eq_self_of {α : Type} (l : List α) (f : α → α) (h : ∀ x ∈ l, f x = x) :
    l.map f = l := by
  induction l with
  | nil => rfl
  | cons x t ih =>
    rw [List.map_cons, h x (List.mem_cons_self x t),
      ih (fun y hy => h y (List.mem_cons_of_mem x hy))]

theorem filterMap_cellNum_length (cells : List Cell)
    (hwf : ∀ x ∈ cells, cellPresent x = true → cellIsNum x = true) :
    (cells.filterMap cellNum?).length = (cells.filterMap id).length := by
  induction cells with
  | nil => rfl
  | cons x t ih =>
    have hx := hwf x (List.mem_cons_self x t)
    have iht := ih (fun y hy hp => hwf y (List.mem_cons_of_mem x hy) hp)
    cases x with
    | none => simpa [List.filterMap_cons, cellNum?] using iht
    | some v =>
      cases v with
      | num q => simpa [List.filterMap_cons, cellNum?] using iht
      | str s =>
        have h2 : cellIsNum (some (.str s)) = true := hx rfl
        simp [cellIsNum, cellNum?] at h2

theorem numsOf_nonempty_of_nunique (c : Col) (hu : 10 < nuniqueCol c)
    (hwf : ∀ x ∈ c.cells, cellPresent x = true → cellIsNum x = true) :
    numsOf c ≠ [] ∧ 2 ≤ (numsOf c).length := by
  have h1 : nuniqueCol c ≤ (valsOf c).length :=
    List.Sublist.length_le (List.dedup_sublist (valsOf c))
  have h2 : (numsOf c).length = (valsOf c).length := filterMap_cellNum_length c.cells hwf
  rw [nuniqueCol] at hu h1
  constructor
  · intro hnil
    rw [hnil] at h2
    simp at h2
    omega
  · omega

theorem iqrCapCol_spec (t : ℚ) (c : Col) (ht : 0 ≤ t) (hvs : numsOf c ≠ []) :
    ∃ q1 q3, quantileQ (numsOf c) (1/4) = some q1 ∧ quantileQ (numsOf c) (3/4) = some q3
      ∧ q1 - t * (q3 - q1) ≤ q3 + t * (q3 - q1)
      ∧ (iqrCapCol t c).cells
          = c.cells.map (clampCell (q1 - t * (q3 - q1)) (q3 + t * (q3 - q1)))
      ∧ (iqrCapCol t c).name = c.name ∧ (iqrCapCol t c).numeric = c.numeric := by
  obtain ⟨q1, hq1⟩ := quantileQ_isSome (numsOf c) hvs (1/4) (by norm_num) (by norm_num)
  obtain ⟨q3, hq3⟩ := quantileQ_isSome (numsOf c) hvs (3/4) (by norm_num) (by norm_num)
  have h13 : q1 ≤ q3 :=
    quantileQ_mono (numsOf c) (1/4) (3/4) (by norm_num) (by norm_num) (by norm_num) q1 q3 hq1 hq3
  have hmul : 0 ≤ t * (q3 - q1) := mul_nonneg ht (by linarith)
  have hlohi : q1 - t * (q3 - q1) ≤ q3 + t * (q3 - q1) := by linarith
  refine ⟨q1, q3, hq1, hq3, hlohi, ?_⟩
  rw [iqrCapCol, hq1, hq3]
  dsimp only
  by_cases hcnt :
      0 < (numsOf c).countP
        (fun x => decide (x < q1 - t * (q3 - q1)) || decide (q3 + t * (q3 - q1) < x))
  · rw [if_pos hcnt]
    exact ⟨rfl, rfl, rfl⟩
  · rw [if_neg hcnt]
    have hall := List.countP_eq_zero.mp (Nat.eq_zero_of_not_pos hcnt)
    refine ⟨?_, rfl, rfl⟩
    symm
    apply map_eq_self_of
    intro x hx
    cases x with
    | none => rfl
    | some v =>
      cases v with
      | str s => rfl
      | num z =>
        have hz : z ∈ numsOf c := by
          rw [numsOf]
          exact List.mem_filterMap.mpr ⟨some (.num z), hx, rfl⟩
        have hz2 := hall z hz
        simp only [Bool.or_eq_true, decide_eq_true_eq, not_or] at hz2
        rw [clampCell]
        rw [max_eq_left (by linarith [hz2.1]), min_eq_left (by linarith [hz2.2])]

theorem varPop_le_varSample (l : List ℚ) (h2 : 2 ≤ l.length) : varPop l ≤ varSample l := by
  rw [varPop, varSample]
  have hS : 0 ≤ (l.map (fun x => (x - meanQ l) ^ 2)).sum := by
    apply List.sum_nonneg
    intro x hx
    obtain ⟨y, _, rfl⟩ := List.mem_map.mp hx
    exact sq_nonneg _
  have hl1 : (0 : ℚ) < (l.length : ℚ) - 1 := by
    have h3 : (2 : ℚ) ≤ (l.length : ℚ) := by exact_mod_cast h2
    linarith
  have hl2 : (l.length : ℚ) - 1 ≤ (l.length : ℚ) := by linarith
  gcongr

open Classical in
theorem zscoreCapCol_spec (t : ℝ) (c : Col) (ht : 0 ≤ t) (hn2 : 2 ≤ (numsOf c).length) :
    ((meanQ (numsOf c) : ℚ) : ℝ) - t * Real.sqrt (varSample (numsOf c))
        ≤ ((meanQ (numsOf c) : ℚ) : ℝ) + t * Real.sqrt (varSample (numsOf c))
    ∧ (zscoreCapCol t c).cells
        = (rcolOfCol c).cells.map (clampRCell
            (((meanQ (numsOf c) : ℚ) : ℝ) - t * Real.sqrt (varSample (numsOf c)))
            (((meanQ (numsOf c) : ℚ) : ℝ) + t * Real.sqrt (varSample (numsOf c))))
    ∧ (zscoreCapCol t c).name = c.name ∧ (zscoreCapCol t c).numeric = c.numeric := by
  have hsq : 0 ≤ t * Real.sqrt (varSample (numsOf c)) :=
    mul_nonneg ht (Real.sqrt_nonneg _)
  refine ⟨by linarith, ?_⟩
  rw [zscoreCapCol]
  by_cases hcnt :
      0 < (numsOf c).countP
        (fun x : ℚ => decide (t * Real.sqrt (varPop (numsOf c))
          < |(x : ℝ) - ((meanQ (numsOf c) : ℚ) : ℝ)|))
  · rw [if_pos hcnt]
    exact ⟨rfl, rfl, rfl⟩
  · rw [if_neg hcnt]
    have hall := List.countP_eq_zero.mp (Nat.eq_zero_of_not_pos hcnt)
    have hstd : Real.sqrt (varPop (numsOf c)) ≤ Real.sqrt (varSample (numsOf c)) := by
      apply Real.sqrt_le_sqrt
      exact_mod_cast varPop_le_varSample (numsOf c) hn2
    refine ⟨?_, rfl, rfl⟩
    rw [rcolOfCol]
    symm
    apply map_eq_self_of
    intro x hx
    obtain ⟨x0, hx0, rfl⟩ := List.mem_map.mp hx
    cases x0 with
    | none => rfl
    | some v =>
      cases v with
      | str s => rfl
      | num z =>
        have hz : z ∈ numsOf c := by
          rw [numsOf]
          exact List.mem_filterMap.mpr ⟨some (.num z), hx0, rfl⟩
        have hz2 := hall z hz
        simp only [decide_eq_true_eq, not_lt] at hz2
        have hz3 : |(z : ℝ) - ((meanQ (numsOf c) : ℚ) : ℝ)|
            ≤ t * Real.sqrt (varSample (numsOf c)) :=
          le_trans hz2 (mul_le_mul_of_nonneg_left hstd ht)
        rw [abs_le] at hz3
        simp only [Option.map_some', rvalOfVal, clampRCell]
        rw [max_eq_left (by linarith [hz3.1]), min_eq_left (by linarith [hz3.2])]

theorem iqrCapCol_shape (t : ℚ) (c : Col) :
    (iqrCapCol t c).name = c.name ∧ (iqrCapCol t c).numeric = c.numeric
    ∧ (iqrCapCol t c).cells.length = c.cells.length := by
  rw [iqrCapCol]
  cases hq1 : quantileQ (numsOf c) (1/4) with
  | none => exact ⟨rfl, rfl, rfl⟩
  | some q1 =>
    cases hq3 : quantileQ (numsOf c) (3/4) with
    | none => exact ⟨rfl, rfl, rfl⟩
    | some q3 =>
      dsimp only
      by_cases hcnt :
          0 < (numsOf c).countP
            (fun x => decide (x < q1 - t * (q3 - q1)) || decide (q3 + t * (q3 - q1) < x))
      · rw [if_pos hcnt]
        exact ⟨rfl, rfl, List.length_map _ _⟩
      · rw [if_neg hcnt]
        exact ⟨rfl, rfl, rfl⟩

open Classical in
theorem zscoreCapCol_shape (t : ℝ) (c : Col) :
    (zscoreCapCol t c).name = c.name ∧ (zscoreCapCol t c).numeric = c.numeric
    ∧ (zscoreCapCol t c).cells.length = c.cells.length := by
  rw [zscoreCapCol]
  by_cases hcnt :
      0 < (numsOf c).countP
        (fun x : ℚ => decide (t * Real.sqrt (varPop (numsOf c))
          < |(x : ℝ) - ((meanQ (numsOf c) : ℚ) : ℝ)|))
  · rw [if_pos hcnt]
    refine ⟨rfl, rfl, ?_⟩
    rw [List.length_map, rcolOfCol]
    exact List.length_map _ _
  · rw [if_neg hcnt]
    refine ⟨rfl, rfl, ?_⟩
    rw [rcolOfCol]
    exact List.length_map _ _

/-- C4: handle_outliers caps rather than removes: the column list and
every column length are unchanged; numeric columns with more than 10
distinct values are clipped cell-wise into the IQR band (iqr method) or
the mean-plus-minus-threshold-standard-deviations band (zscore method,
stated over the real-valued model), and every resulting value lies in
that band; all other columns are left untouched. -/
theorem C4_outlier_capping :
    (∀ (t : ℚ) (df : Frame),
      (handle_outliers_iqr t df).map Col.name = df.map Col.name
      ∧ (handle_outliers_iqr t df).map (fun c => c.cells.length)
          = df.map (fun c => c.cells.length)
      ∧ (∀ i c, df.get? i = some c → (c.numeric = false ∨ nuniqueCol c ≤ 10) →
          (handle_outliers_iqr t df).get? i = some c)
      ∧ (∀ i c, df.get? i = some c → c.numeric = true → 10 < nuniqueCol c →
          (∀ x ∈ c.cells, cellPresent x = true → cellIsNum x = true) → 0 ≤ t →
          ∃ q1 q3, quantileQ (numsOf c) (1/4) = some q1
            ∧ quantileQ (numsOf c) (3/4) = some q3
            ∧ (handle_outliers_iqr t df).get? i = some
                { c with cells := (c.cells.map
                    (clampCell (q1 - t * (q3 - q1)) (q3 + t * (q3 - q1)))) }
            ∧ ∀ x ∈ (numsOf c).map
                (fun v => min (max v (q1 - t * (q3 - q1))) (q3 + t * (q3 - q1))),
                q1 - t * (q3 - q1) ≤ x ∧ x ≤ q3 + t * (q3 - q1)))
    ∧ (∀ (t : ℝ) (df : Frame),
      (handle_outliers_zscore t df).map RCol.name = df.map Col.name
      ∧ (handle_outliers_zscore t df).map (fun c => c.cells.length)
          = df.map (fun c => c.cells.length)
      ∧ (∀ i c, df.get? i = some c → (c.numeric = false ∨ nuniqueCol c ≤ 10) →
          (handle_outliers_zscore t df).get? i = some (rcolOfCol c))
      ∧ (∀ i c, df.get? i = some c → c.numeric = true → 10 < nuniqueCol c →
          (∀ x ∈ c.cells, cellPresent x = true → cellIsNum x = true) → 0 ≤ t →
          (handle_outliers_zscore t df).get? i = some
              ⟨c.name, c.numeric, (rcolOfCol c).cells.map (clampRCell
                (((meanQ (numsOf c) : ℚ) : ℝ) - t * Real.sqrt (varSample (numsOf c)))
                (((meanQ (numsOf c) : ℚ) : ℝ) + t * Real.sqrt (varSample (numsOf c))))⟩
            ∧ ∀ x ∈ (numsOf c).map (fun v : ℚ => min (max (v : ℝ)
                (((meanQ (numsOf c) : ℚ) : ℝ) - t * Real.sqrt (varSample (numsOf c))))
                (((meanQ (numsOf c) : ℚ) : ℝ) + t * Real.sqrt (varSample (numsOf c)))),
                ((meanQ (numsOf c) : ℚ) : ℝ) - t * Real.sqrt (varSample (numsOf c)) ≤ x
                ∧ x ≤ ((meanQ (numsOf c) : ℚ) : ℝ) + t * Real.sqrt (varSample (numsOf c)))) := by
  constructor
  · intro t df
    refine ⟨?_, ?_, ?_, ?_⟩
    · rw [handle_outliers_iqr, List.map_map]
      apply List.map_congr_left
      intro c _
      by_cases hc : (c.numeric && decide (10 < nuniqueCol c)) = true
      · simp only [Function.comp, hc, if_true]
        exact (iqrCapCol_shape t c).1
      · simp only [Function.comp]
        rw [if_neg hc]
    · rw [handle_outliers_iqr, List.map_map]
      apply List.map_congr_left
      intro c _
      by_cases hc : (c.numeric && decide (10 < nuniqueCol c)) = true
      · simp only [Function.comp, hc, if_true]
        exact (iqrCapCol_shape t c).2.2
      · simp only [Function.comp]
        rw [if_neg hc]
    · intro i c hi hoff
      have hcond : (c.numeric && decide (10 < nuniqueCol c)) = false := by
        rcases hoff with h | h
        · rw [h]; rfl
        · rw [decide_eq_false (Nat.not_lt.mpr h), Bool.and_false]
      rw [handle_outliers_iqr, List.get?_map, hi, Option.map_some', hcond]
      rfl
    · intro i c hi hnum hu hwf ht
      have hvs := numsOf_nonempty_of_nunique c hu hwf
      obtain ⟨q1, q3, hq1, hq3, hlohi, hcells, hname, hnumeric⟩ :=
        iqrCapCol_spec t c ht hvs.1
      refine ⟨q1, q3, hq1, hq3, ?_, ?_⟩
      · have hcond : (c.numeric && decide (10 < nuniqueCol c)) = true := by
          rw [hnum, decide_eq_true hu]; rfl
        rw [handle_outliers_iqr, List.get?_map, hi, Option.map_some', hcond]
        simp only [if_true]
        congr 1
        ext : 1
        · exact hname
        · exact hnumeric
        · exact hcells
      · intro x hx
        obtain ⟨v, _, rfl⟩ := List.mem_map.mp hx
        exact ⟨le_min (le_max_right _ _) hlohi, min_le_right _ _⟩
  · intro t df
    refine ⟨?_, ?_, ?_, ?_⟩
    · rw [handle_outliers_zscore, List.map_map]
      apply List.map_congr_left
      intro c _
      by_cases hc : (c.numeric && decide (10 < nuniqueCol c)) = true
      · simp only [Function.comp, hc, if_true]
        exact (zscoreCapCol_shape t c).1
      · simp only [Function.comp]
        rw [if_neg hc]
        rfl
    · rw [handle_outliers_zscore, List.map_map]
      apply List.map_congr_left
      intro c _
      by_cases hc : (c.numeric && decide (10 < nuniqueCol c)) = true
      · simp only [Function.comp, hc, if_true]
        exact (zscoreCapCol_shape t c).2.2
      · simp only [Function.comp]
        rw [if_neg hc, rcolOfCol]
        exact List.length_map _ _
    · intro i c hi hoff
      have hcond : (c.numeric && decide (10 < nuniqueCol c)) = false := by
        rcases hoff with h | h
        · rw [h]; rfl
        · rw [decide_eq_false (Nat.not_lt.mpr h), Bool.and_false]
      rw [handle_outliers_zscore, List.get?_map, hi, Option.map_some', hcond]
      rfl
    · intro i c hi hnum hu hwf ht
      have hvs := numsOf_nonempty_of_nunique c hu hwf
      obtain ⟨hlohi, hcells, hname, hnumeric⟩ := zscoreCapCol_spec t c ht hvs.2
      constructor
      · have hcond : (c.numeric && decide (10 < nuniqueCol c)) = true := by
          rw [hnum, decide_eq_true hu]; rfl
        rw [handle_outliers_zscore, List.get?_map, hi, Option.map_some', hcond]
        simp only [if_true]
        congr 1
        ext : 1
        · exact hname
        · exact hnumeric
        · exact hcells
      · intro x hx
        obtain ⟨v, _, rfl⟩ := List.mem_map.mp hx
        exact ⟨le_min (le_max_right _ _) hlohi, min_le_right _ _⟩

/-- C4 witnessed: the IQR clause on a single eleven-value numeric column
at threshold 2. -/
theorem C4_outlier_capping_witness :
    ∃ q1 q3, quantileQ (numsOf exCol4) (1/4) = some q1
      ∧ quantileQ (numsOf exCol4) (3/4) = some q3
      ∧ (handle_outliers_iqr 2 [exCol4]).get? 0 = some
          { exCol4 with cells := (exCol4.cells.map
              (clampCell (q1 - 2 * (q3 - q1)) (q3 + 2 * (q3 - q1)))) }
      ∧ ∀ x ∈ (numsOf exCol4).map
          (fun v => min (max v (q1 - 2 * (q3 - q1))) (q3 + 2 * (q3 - q1))),
          q1 - 2 * (q3 - q1) ≤ x ∧ x ≤ q3 + 2 * (q3 - q1) :=
  (C4_outlier_capping.1 2 [exCol4]).2.2.2 0 exCol4 rfl rfl (by decide) (by decide) (by decide)

/-! ### Lemmas on handle_missing_values -/

theorem nullCount_eq_zero_of_all_some (c : Col)
    (h : ∀ x ∈ c.cells, cellPresent x = true) : nullCount c = 0 := by
  rw [nullCount]
  apply List.countP_eq_zero.mpr
  intro x hx
  rw [h x hx]
  decide

theorem exists_mem_enumFrom {α : Type} (x : α) :
    ∀ (l : List α), x ∈ l → ∀ k, ∃ i, (i, x) ∈ l.enumFrom k := by
  intro l
  induction l with
  | nil => intro h; cases h
  | cons a t ih =>
    intro h k
    rcases List.mem_cons.mp h with rfl | ht
    · exact ⟨k, List.mem_cons_self _ _⟩
    · obtain ⟨i, hi⟩ := ih ht (k + 1)
      exact ⟨i, List.mem_cons_of_mem _ hi⟩

theorem exists_mem_enum {α : Type} (x : α) (l : List α) (h : x ∈ l) :
    ∃ i, (i, x) ∈ l.enum :=
  exists_mem_enumFrom x l h 0

theorem numsOf_ne_nil_iff (c : Col) :
    numsOf c ≠ [] ↔ ∃ x ∈ c.cells, cellNum? x ≠ none := by
  rw [numsOf, Ne, List.filterMap_eq_nil_iff]
  push_neg
  rfl

theorem fillCells_numsOf (c : Col) (v : Val) (h : numsOf c ≠ []) :
    numsOf { c with cells := fillCells c.cells v } ≠ [] := by
  obtain ⟨x, hx, hq⟩ := (numsOf_ne_nil_iff c).mp h
  apply (numsOf_ne_nil_iff _).mpr
  refine ⟨some (x.getD v), ?_, ?_⟩
  · exact List.mem_map_of_mem _ hx
  · match x, hq with
    | some (.num q), _ => simp [cellNum?]

theorem enumFill_numsOf (c : Col) (g : Nat → ℚ) (h : numsOf c ≠ []) :
    numsOf { c with
      cells := c.cells.enum.map (fun p => some (p.2.getD (.num (g p.1)))) } ≠ [] := by
  obtain ⟨x, hx, hq⟩ := (numsOf_ne_nil_iff c).mp h
  obtain ⟨i, hi⟩ := exists_mem_enum x c.cells hx
  apply (numsOf_ne_nil_iff _).mpr
  refine ⟨some (x.getD (.num (g i))), ?_, ?_⟩
  · exact List.mem_map_of_mem (fun p => some (p.2.getD (.num (g p.1)))) hi
  · match x, hq with
    | some (.num q), _ => simp [cellNum?]

theorem find?_cons_pos {α : Type} (p : α → Bool) (a : α) (l : List α) (h : p a = true) :
    List.find? p (a :: l) = some a := List.find?_cons_of_pos l h

theorem find?_cons_neg {α : Type} (p : α → Bool) (a : α) (l : List α) (h : p a = false) :
    List.find? p (a :: l) = List.find? p l := List.find?_cons_of_neg l (by simp [h])

theorem medianQ_exists (l : List ℚ) (h : l ≠ []) : ∃ m, medianQ l = some m := by
  rw [medianQ]
  have hlen : (l.insertionSort (· ≤ ·)).length = l.length := List.length_insertionSort _ l
  have hpos : 0 < (l.insertionSort (· ≤ ·)).length := by
    rw [hlen]
    exact List.length_pos.mpr h
  rw [if_neg (by omega)]
  by_cases hodd : (l.insertionSort (· ≤ ·)).length % 2 = 1
  · rw [if_pos hodd]
    have : ¬ (l.insertionSort (· ≤ ·)).length
        ≤ (l.insertionSort (· ≤ ·)).length / 2 := by omega
    cases hg : (l.insertionSort (· ≤ ·)).get? ((l.insertionSort (· ≤ ·)).length / 2) with
    | none => exact absurd (List.get?_eq_none.mp hg) this
    | some a => exact ⟨a, rfl⟩
  · rw [if_neg hodd]
    have h2 : 2 ≤ (l.insertionSort (· ≤ ·)).length := by omega
    have ha : ¬ (l.insertionSort (· ≤ ·)).length
        ≤ (l.insertionSort (· ≤ ·)).length / 2 - 1 := by omega
    have hb : ¬ (l.insertionSort (· ≤ ·)).length
        ≤ (l.insertionSort (· ≤ ·)).length / 2 := by omega
    cases hga : (l.insertionSort (· ≤ ·)).get? ((l.insertionSort (· ≤ ·)).length / 2 - 1) with
    | none => exact absurd (List.get?_eq_none.mp hga) ha
    | some a =>
      cases hgb : (l.insertionSort (· ≤ ·)).get? ((l.insertionSort (· ≤ ·)).length / 2) with
      | none => exact absurd (List.get?_eq_none.mp hgb) hb
      | some b => exact ⟨(a + b) / 2, rfl⟩

theorem mem_of_findCol {df : Frame} {n : String} {c : Col}
    (h : findCol df n = some c) : c ∈ df ∧ c.name = n := by
  refine ⟨List.mem_of_find?_eq_some h, ?_⟩
  have := List.find?_some h
  exact beq_iff_eq.mp this

theorem findCol_unique {df : Frame} (hnd : (names df).Nodup) {c : Col}
    (hc : c ∈ df) : findCol df c.name = some c := by
  induction df with
  | nil => cases hc
  | cons d t ih =>
    rw [names, List.map_cons, List.nodup_cons] at hnd
    rcases List.mem_cons.mp hc with rfl | ht
    · exact List.find?_cons_of_pos t (beq_self_eq_true _)
    · have hne : d.name ≠ c.name := by
        intro he
        exact hnd.1 (he ▸ List.mem_map_of_mem Col.name ht)
      rw [findCol, List.find?_cons_of_neg t (by simp [beq_eq_false_iff_ne.mpr hne])]
      exact ih hnd.2 ht

theorem findCol_eq_none_iff (df : Frame) (n : String) :
    findCol df n = none ↔ n ∉ names df := by
  rw [findCol, List.find?_eq_none]
  constructor
  · intro h hmem
    obtain ⟨c, hc, hcn⟩ := List.mem_map.mp hmem
    exact h c hc (by rw [hcn]; exact beq_self_eq_true n)
  · intro h c hc hb
    exact h (beq_iff_eq.mp hb ▸ List.mem_map_of_mem Col.name hc)

theorem findCol_dropCol_self (df : Frame) (n : String) :
    findCol (dropCol df n) n = none := by
  apply (findCol_eq_none_iff _ _).mpr
  intro hmem
  obtain ⟨c, hc, hcn⟩ := List.mem_map.mp hmem
  have := List.of_mem_filter hc
  rw [bne_iff_ne] at this
  exact this hcn

theorem findCol_dropCol_ne (df : Frame) {m n : String} (h : m ≠ n) :
    findCol (dropCol df n) m = findCol df m := by
  induction df with
  | nil => rfl
  | cons d t ih =>
    simp only [findCol, dropCol, List.filter_cons] at ih ⊢
    by_cases hdn : (d.name != n) = true
    · rw [if_pos hdn]
      cases hdm : (d.name == m) with
      | true =>
        rw [find?_cons_pos (fun c => c.name == m) d _ hdm,
          find?_cons_pos (fun c => c.name == m) d t hdm]
      | false =>
        rw [find?_cons_neg (fun c => c.name == m) d _ hdm,
          find?_cons_neg (fun c => c.name == m) d t hdm]
        exact ih
    · rw [if_neg hdn]
      rw [bne_iff_ne, not_not] at hdn
      have hdm : (d.name == m) = false :=
        beq_eq_false_iff_ne.mpr (by rw [hdn]; exact fun he => h he.symm)
      rw [find?_cons_neg (fun c => c.name == m) d t hdm]
      exact ih

theorem findCol_setCol_ne (df : Frame) {m n : String} {c' : Col} (h : m ≠ n)
    (hc' : c'.name = n) : findCol (setCol df n c') m = findCol df m := by
  induction df with
  | nil => rfl
  | cons d t ih =>
    simp only [findCol, setCol, List.map_cons] at ih ⊢
    by_cases hdn : (d.name == n) = true
    · rw [if_pos hdn]
      have hcm : (c'.name == m) = false :=
        beq_eq_false_iff_ne.mpr (by rw [hc']; exact fun he => h he.symm)
      have hdm : (d.name == m) = false :=
        beq_eq_false_iff_ne.mpr (by rw [beq_iff_eq.mp hdn]; exact fun he => h he.symm)
      rw [find?_cons_neg (fun c => c.name == m) c' _ hcm,
        find?_cons_neg (fun c => c.name == m) d t hdm]
      exact ih
    · rw [if_neg hdn]
      cases hdm : (d.name == m) with
      | true =>
        rw [find?_cons_pos (fun c => c.name == m) d _ hdm,
          find?_cons_pos (fun c => c.name == m) d t hdm]
      | false =>
        rw [find?_cons_neg (fun c => c.name == m) d _ hdm,
          find?_cons_neg (fun c => c.name == m) d t hdm]
        exact ih

theorem findCol_setCol_self {df : Frame} {n : String} {c c' : Col}
    (hfc : findCol df n = some c) (hc' : c'.name = n) :
    findCol (setCol df n c') n = some c' := by
  induction df with
  | nil => exact Option.noConfusion hfc
  | cons d t ih =>
    simp only [findCol, setCol, List.map_cons] at hfc ih ⊢
    by_cases hdn : (d.name == n) = true
    · rw [if_pos hdn]
      exact find?_cons_pos (fun c => c.name == n) c' _ (by simp [hc'])
    · rw [if_neg hdn]
      rw [find?_cons_neg (fun c => c.name == n) d t (Bool.eq_false_iff.mpr hdn)] at hfc
      rw [find?_cons_neg (fun c => c.name == n) d _ (Bool.eq_false_iff.mpr hdn)]
      exact ih hfc

theorem knnFill_col_name (knn : String → Nat → ℚ) (c : Col) :
    (if c.numeric then
      { c with cells := c.cells.enum.map (fun p => some (p.2.getD (.num (knn c.name p.1)))) }
     else c).name = c.name := by
  by_cases h : c.numeric = true
  · rw [if_pos h]
  · rw [if_neg h]

theorem findCol_knnFill (knn : String → Nat → ℚ) {df : Frame} {m : String} {c : Col}
    (hfc : findCol df m = some c) (hnn : c.numeric = false) :
    findCol (knnFillFrame knn df) m = some c := by
  induction df with
  | nil => exact Option.noConfusion hfc
  | cons d t ih =>
    simp only [findCol, knnFillFrame, List.map_cons] at hfc ih ⊢
    by_cases hdm : (d.name == m) = true
    · rw [find?_cons_pos (fun c => c.name == m) d t hdm] at hfc
      have hdc : d = c := Option.some.inj hfc
      subst hdc
      rw [if_neg (by rw [hnn]; exact Bool.false_ne_true)]
      exact find?_cons_pos (fun c => c.name == m) d _ hdm
    · rw [find?_cons_neg (fun c => c.name == m) d t (Bool.eq_false_iff.mpr hdm)] at hfc
      by_cases hdnum : d.numeric = true
      · rw [if_pos hdnum]
        rw [find?_cons_neg (fun c : Col => c.name == m)
          (⟨d.name, d.numeric,
            List.map (fun p => some (Option.getD p.2 (Val.num (knn d.name p.1)))) d.cells.enum⟩ : Col)
          _ (Bool.eq_false_iff.mpr hdm)]
        exact ih hfc
      · rw [if_neg hdnum]
        rw [find?_cons_neg (fun c => c.name == m) d _ (Bool.eq_false_iff.mpr hdm)]
        exact ih hfc

theorem names_setCol (df : Frame) {n : String} {c' : Col} (hc' : c'.name = n) :
    names (setCol df n c') = names df := by
  rw [names, setCol, List.map_map, names]
  apply List.map_congr_left
  intro c0 _
  by_cases h : (c0.name == n) = true
  · simp only [Function.comp, if_pos h]
    rw [hc', beq_iff_eq.mp h]
  · simp only [Function.comp, if_neg h]

theorem names_knnFill (knn : String → Nat → ℚ) (df : Frame) :
    names (knnFillFrame knn df) = names df := by
  rw [names, knnFillFrame, List.map_map, names]
  apply List.map_congr_left
  intro c0 _
  exact knnFill_col_name knn c0

theorem names_dropCol_sublist (df : Frame) (n : String) :
    List.Sublist (names (dropCol df n)) (names df) :=
  (List.filter_sublist df).map Col.name

theorem fillMedianCol_name (c : Col) : (fillMedianCol c).name = c.name := by
  unfold fillMedianCol
  cases medianQ (numsOf c) <;> rfl

theorem fillMedianCol_cases (c : Col) :
    fillMedianCol c = c ∨ ∃ m, medianQ (numsOf c) = some m
      ∧ fillMedianCol c = { c with cells := (fillCells c.cells (.num m)) } := by
  unfold fillMedianCol
  cases hm : medianQ (numsOf c) with
  | none => exact Or.inl rfl
  | some m => exact Or.inr ⟨m, rfl, rfl⟩

/-- The complete case analysis of one smart-strategy iteration of the
missing-value loop: skipped (no column of that name, or no missing
value), dropped at more than 90 percent missing, KNN-filled over the
whole frame, median-filled, or mode/Unknown-filled. -/
theorem missingStep_smart_cases (knn : String → Nat → ℚ) (st : Frame × List COp) (n : String) :
    (missingStep "smart" knn st n = st
      ∧ (findCol st.1 n = none ∨ ∃ c, findCol st.1 n = some c ∧ nullCount c = 0))
    ∨ ∃ c, findCol st.1 n = some c ∧ nullCount c ≠ 0 ∧
      ((90 * c.cells.length < 100 * nullCount c
          ∧ missingStep "smart" knn st n = (dropCol st.1 n, st.2 ++ [.droppedCol n]))
       ∨ (¬ 90 * c.cells.length < 100 * nullCount c ∧ c.numeric = true
          ∧ ((100 * nullCount c < 50 * c.cells.length ∧ 1 < numericColCount st.1
               ∧ missingStep "smart" knn st n = (knnFillFrame knn st.1, st.2 ++ [.knnApplied]))
             ∨ (¬ (100 * nullCount c < 50 * c.cells.length ∧ 1 < numericColCount st.1)
               ∧ missingStep "smart" knn st n
                   = (setCol st.1 n (fillMedianCol c), st.2 ++ [.medianImp n]))))
       ∨ (¬ 90 * c.cells.length < 100 * nullCount c ∧ c.numeric = false
          ∧ missingStep "smart" knn st n
              = (setCol st.1 n { c with cells := (fillCells c.cells (objectFillVal c)) },
                 st.2 ++ [if 100 * nullCount c < 50 * c.cells.length ∧ (modeVal c).isSome = true
                          then .modeImp n else .unknownImp n]))) := by
  cases hfc : findCol st.1 n with
  | none =>
    left
    refine ⟨?_, Or.inl rfl⟩
    unfold missingStep
    rw [hfc]
  | some c =>
    by_cases h0 : (nullCount c == 0) = true
    · left
      refine ⟨?_, Or.inr ⟨c, rfl, beq_iff_eq.mp h0⟩⟩
      unfold missingStep
      rw [hfc]
      dsimp only
      rw [if_pos h0]
    · have hnn : nullCount c ≠ 0 := by
        intro he
        exact h0 (by rw [he]; rfl)
      right
      refine ⟨c, rfl, hnn, ?_⟩
      by_cases h90 : 90 * c.cells.length < 100 * nullCount c
      · refine Or.inl ⟨h90, ?_⟩
        unfold missingStep
        rw [hfc]
        dsimp only
        rw [if_neg h0, if_pos h90]
      · by_cases hnum : c.numeric = true
        · refine Or.inr (Or.inl ⟨h90, hnum, ?_⟩)
          by_cases hk : 100 * nullCount c < 50 * c.cells.length ∧ 1 < numericColCount st.1
          · refine Or.inl ⟨hk.1, hk.2, ?_⟩
            unfold missingStep
            rw [hfc]
            dsimp only
            rw [if_neg h0, if_neg h90, if_pos hnum, if_pos (beq_self_eq_true "smart"),
              if_pos (show (decide (100 * nullCount c < 50 * c.cells.length)
                && decide (1 < numericColCount st.1)) = true from by
                  rw [decide_eq_true hk.1, decide_eq_true hk.2]; rfl)]
          · refine Or.inr ⟨hk, ?_⟩
            unfold missingStep
            rw [hfc]
            dsimp only
            rw [if_neg h0, if_neg h90, if_pos hnum, if_pos (beq_self_eq_true "smart"),
              if_neg (show ¬ (decide (100 * nullCount c < 50 * c.cells.length)
                && decide (1 < numericColCount st.1)) = true from by
                  intro hb
                  rw [Bool.and_eq_true, decide_eq_true_eq, decide_eq_true_eq] at hb
                  exact hk hb)]
        · have hnumf : c.numeric = false := Bool.eq_false_iff.mpr hnum
          refine Or.inr (Or.inr ⟨h90, hnumf, ?_⟩)
          by_cases h50 : 100 * nullCount c < 50 * c.cells.length
          · cases hmv : modeVal c with
            | some v =>
              have hstep : missingStep "smart" knn st n
                  = (setCol st.1 n { c with cells := (fillCells c.cells v) },
                     st.2 ++ [.modeImp n]) := by
                unfold missingStep
                rw [hfc]
                dsimp only
                rw [if_neg h0, if_neg h90, if_neg hnum, if_pos h50, hmv]
              rw [hstep, objectFillVal, if_pos h50, hmv,
                if_pos (show 100 * nullCount c < 50 * c.cells.length
                  ∧ (some v).isSome = true from ⟨h50, rfl⟩)]
              rfl
            | none =>
              have hstep : missingStep "smart" knn st n
                  = (setCol st.1 n { c with cells := (fillCells c.cells (.str "Unknown")) },
                     st.2 ++ [.unknownImp n]) := by
                unfold missingStep
                rw [hfc]
                dsimp only
                rw [if_neg h0, if_neg h90, if_neg hnum, if_pos h50, hmv]
              rw [hstep, objectFillVal, if_pos h50, hmv,
                if_neg (show ¬ (100 * nullCount c < 50 * c.cells.length
                  ∧ (none : Option Val).isSome = true) from fun hx => by
                    exact Bool.noConfusion hx.2)]
              rfl
          · have hstep : missingStep "smart" knn st n
                = (setCol st.1 n { c with cells := (fillCells c.cells (.str "Unknown")) },
                   st.2 ++ [.unknownImp n]) := by
              unfold missingStep
              rw [hfc]
              dsimp only
              rw [if_neg h0, if_neg h90, if_neg hnum, if_neg h50]
            rw [hstep, objectFillVal, if_neg h50,
              if_neg (show ¬ (100 * nullCount c < 50 * c.cells.length
                ∧ (modeVal c).isSome = true) from fun hx => h50 hx.1)]

theorem missingStep_names_sublist (knn : String → Nat → ℚ) (st : Frame × List COp)
    (n : String) :
    List.Sublist (names (missingStep "smart" knn st n).1) (names st.1) := by
  rcases missingStep_smart_cases knn st n with ⟨hstep, _⟩ | ⟨c, hfc, _, hbr⟩
  · rw [hstep]
  · have hcn := (mem_of_findCol hfc).2
    rcases hbr with ⟨_, hstep⟩ | ⟨_, _, hbr2⟩ | ⟨_, _, hstep⟩
    · rw [hstep]
      exact names_dropCol_sublist st.1 n
    · rcases hbr2 with ⟨_, _, hstep⟩ | ⟨_, hstep⟩
      · rw [hstep]
        rw [show ((knnFillFrame knn st.1, st.2 ++ [COp.knnApplied]).1) = knnFillFrame knn st.1
          from rfl, names_knnFill]
      · rw [hstep]
        rw [show ((setCol st.1 n (fillMedianCol c), st.2 ++ [COp.medianImp n]).1)
          = setCol st.1 n (fillMedianCol c) from rfl,
          names_setCol st.1 ((fillMedianCol_name c).trans hcn)]
    · rw [hstep]
      exact (names_setCol st.1 (show ({ c with
        cells := (fillCells c.cells (objectFillVal c)) } : Col).name = n from hcn)).symm ▸
        List.Sublist.refl (names st.1)

theorem missingStep_numObs (knn : String → Nat → ℚ) (st : Frame × List COp) (n : String)
    (h : NumObs st.1) : NumObs (missingStep "smart" knn st n).1 := by
  rcases missingStep_smart_cases knn st n with ⟨hstep, _⟩ | ⟨c, hfc, _, hbr⟩
  · rw [hstep]; exact h
  · have hcmem := (mem_of_findCol hfc).1
    rcases hbr with ⟨_, hstep⟩ | ⟨_, hnum, hbr2⟩ | ⟨_, hnum, hstep⟩
    · rw [hstep]
      intro c' hc' hn'
      exact h c' (List.mem_of_mem_filter hc') hn'
    · rcases hbr2 with ⟨_, _, hstep⟩ | ⟨_, hstep⟩
      · rw [hstep]
        intro c' hc' hn'
        obtain ⟨c0, hc0, hco⟩ := List.mem_map.mp hc'
        by_cases h0n : c0.numeric = true
        · rw [if_pos h0n] at hco
          rw [← hco]
          exact enumFill_numsOf c0 (knn c0.name) (h c0 hc0 h0n)
        · rw [if_neg h0n] at hco
          rw [← hco] at hn' ⊢
          exact h c0 hc0 hn'
      · rw [hstep]
        intro c' hc' hn'
        obtain ⟨c0, hc0, hco⟩ := List.mem_map.mp hc'
        by_cases h0n : (c0.name == n) = true
        · rw [if_pos h0n] at hco
          rcases fillMedianCol_cases c with heq | ⟨m, _, heq⟩
          · rw [heq] at hco
            rw [← hco] at hn' ⊢
            exact h c hcmem hn'
          · rw [heq] at hco
            rw [← hco] at hn' ⊢
            exact fillCells_numsOf c _ (h c hcmem hn')
        · rw [if_neg h0n] at hco
          rw [← hco] at hn' ⊢
          exact h c0 hc0 hn'
    · rw [hstep]
      intro c' hc' hn'
      obtain ⟨c0, hc0, hco⟩ := List.mem_map.mp hc'
      by_cases h0n : (c0.name == n) = true
      · rw [if_pos h0n] at hco
        rw [← hco] at hn'
        have hct : c.numeric = true := hn'
        rw [hnum] at hct
        exact Bool.noConfusion hct
      · rw [if_neg h0n] at hco
        rw [← hco] at hn' ⊢
        exact h c0 hc0 hn'

theorem missingStep_mem (knn : String → Nat → ℚ) (st : Frame × List COp) (n : String)
    {c' : Col} (h : c' ∈ (missingStep "smart" knn st n).1) :
    c' ∈ st.1 ∨ nullCount c' = 0 := by
  rcases missingStep_smart_cases knn st n with ⟨hstep, _⟩ | ⟨c, hfc, _, hbr⟩
  · rw [hstep] at h
    exact Or.inl h
  · have hcmem := (mem_of_findCol hfc).1
    rcases hbr with ⟨_, hstep⟩ | ⟨_, hnum, hbr2⟩ | ⟨_, hnum, hstep⟩
    · rw [hstep] at h
      exact Or.inl (List.mem_of_mem_filter h)
    · rcases hbr2 with ⟨_, _, hstep⟩ | ⟨_, hstep⟩
      · rw [hstep] at h
        obtain ⟨c0, hc0, hco⟩ := List.mem_map.mp h
        by_cases h0n : c0.numeric = true
        · rw [if_pos h0n] at hco
          right
          rw [← hco]
          apply nullCount_eq_zero_of_all_some
          intro x hx
          obtain ⟨p, _, hp⟩ := List.mem_map.mp hx
          rw [← hp]; rfl
        · rw [if_neg h0n] at hco
          rw [← hco]
          exact Or.inl hc0
      · rw [hstep] at h
        obtain ⟨c0, hc0, hco⟩ := List.mem_map.mp h
        by_cases h0n : (c0.name == n) = true
        · rw [if_pos h0n] at hco
          rcases fillMedianCol_cases c with heq | ⟨m, _, heq⟩
          · rw [heq] at hco
            rw [← hco]
            exact Or.inl hcmem
          · rw [heq] at hco
            right
            rw [← hco]
            apply nullCount_eq_zero_of_all_some
            intro x hx
            obtain ⟨y, _, hy⟩ := List.mem_map.mp hx
            rw [← hy]; rfl
        · rw [if_neg h0n] at hco
          rw [← hco]
          exact Or.inl hc0
    · rw [hstep] at h
      obtain ⟨c0, hc0, hco⟩ := List.mem_map.mp h
      by_cases h0n : (c0.name == n) = true
      · rw [if_pos h0n] at hco
        right
        rw [← hco]
        apply nullCount_eq_zero_of_all_some
        intro x hx
        obtain ⟨y, _, hy⟩ := List.mem_map.mp hx
        rw [← hy]; rfl
      · rw [if_neg h0n] at hco
        rw [← hco]
        exact Or.inl hc0

theorem missingStep_processed (knn : String → Nat → ℚ) (st : Frame × List COp) (n : String)
    (hnd : (names st.1).Nodup) (hno : NumObs st.1) {c' : Col}
    (h : c' ∈ (missingStep "smart" knn st n).1) (hname : c'.name = n) :
    nullCount c' = 0 := by
  rcases missingStep_smart_cases knn st n with ⟨hstep, hd⟩ | ⟨c, hfc, hnn, hbr⟩
  · rw [hstep] at h
    rcases hd with hnone | ⟨c, hfc, h0⟩
    · exact absurd (hname ▸ List.mem_map_of_mem Col.name h)
        ((findCol_eq_none_iff st.1 n).mp hnone)
    · have huniq := findCol_unique hnd h
      rw [hname, hfc] at huniq
      exact (Option.some.inj huniq) ▸ h0
  · have hcn := (mem_of_findCol hfc).2
    rcases hbr with ⟨_, hstep⟩ | ⟨_, hnum, hbr2⟩ | ⟨_, hnum, hstep⟩
    · rw [hstep] at h
      have hfil : c' ∈ List.filter (fun c => c.name != n) st.1 := h
      have hb := (List.mem_filter.mp hfil).2
      exact absurd hname (bne_iff_ne.mp hb)
    · rcases hbr2 with ⟨_, _, hstep⟩ | ⟨_, hstep⟩
      · rw [hstep] at h
        obtain ⟨c0, hc0, hco⟩ := List.mem_map.mp h
        by_cases h0n : c0.numeric = true
        · rw [if_pos h0n] at hco
          rw [← hco]
          apply nullCount_eq_zero_of_all_some
          intro x hx
          obtain ⟨p, _, hp⟩ := List.mem_map.mp hx
          rw [← hp]; rfl
        · exfalso
          rw [if_neg h0n] at hco
          have huniq := findCol_unique hnd hc0
          rw [hco, hname, hfc] at huniq
          apply h0n
          rw [hco, ← Option.some.inj huniq]
          exact hnum
      · rw [hstep] at h
        obtain ⟨c0, hc0, hco⟩ := List.mem_map.mp h
        by_cases h0n : (c0.name == n) = true
        · rw [if_pos h0n] at hco
          have hnums : numsOf c ≠ [] := hno c (mem_of_findCol hfc).1 hnum
          obtain ⟨m, hm⟩ := medianQ_exists _ hnums
          have hfm : fillMedianCol c = { c with cells := (fillCells c.cells (.num m)) } := by
            unfold fillMedianCol
            rw [hm]
          rw [hfm] at hco
          rw [← hco]
          apply nullCount_eq_zero_of_all_some
          intro x hx
          obtain ⟨y, _, hy⟩ := List.mem_map.mp hx
          rw [← hy]; rfl
        · exfalso
          apply h0n
          rw [if_neg h0n] at hco
          rw [hco, hname]
          exact beq_self_eq_true n
    · rw [hstep] at h
      obtain ⟨c0, hc0, hco⟩ := List.mem_map.mp h
      by_cases h0n : (c0.name == n) = true
      · rw [if_pos h0n] at hco
        rw [← hco]
        apply nullCount_eq_zero_of_all_some
        intro x hx
        obtain ⟨y, _, hy⟩ := List.mem_map.mp hx
        rw [← hy]; rfl
      · exfalso
        apply h0n
        rw [if_neg h0n] at hco
        rw [hco, hname]
        exact beq_self_eq_true n

theorem hmv_fold_nonull (knn : String → Nat → ℚ) : ∀ (l : List String)
    (st : Frame × List COp), (names st.1).Nodup → NumObs st.1 →
    (∀ c ∈ st.1, c.name ∉ l → nullCount c = 0) →
    ∀ c ∈ (l.foldl (missingStep "smart" knn) st).1, nullCount c = 0 := by
  intro l
  induction l with
  | nil =>
    intro st _ _ h3 c hc
    exact h3 c hc (List.not_mem_nil _)
  | cons n rest ih =>
    intro st hnd hno h3
    rw [List.foldl_cons]
    apply ih
    · exact hnd.sublist (missingStep_names_sublist knn st n)
    · exact missingStep_numObs knn st n hno
    · intro c hc hcn
      by_cases hcname : c.name = n
      · exact missingStep_processed knn st n hnd hno hc hcname
      · rcases missingStep_mem knn st n hc with hmem | h0
        · refine h3 c hmem ?_
          intro hin
          rcases List.mem_cons.mp hin with he | ht
          · exact hcname he
          · exact hcn ht
        · exact h0

theorem fold_names_sublist (knn : String → Nat → ℚ) : ∀ (l : List String)
    (st : Frame × List COp),
    List.Sublist (names (l.foldl (missingStep "smart" knn) st).1) (names st.1) := by
  intro l
  induction l with
  | nil => intro st; exact List.Sublist.refl _
  | cons n rest ih =>
    intro st
    rw [List.foldl_cons]
    exact (ih _).trans (missingStep_names_sublist knn st n)

theorem missingStep_stab (knn : String → Nat → ℚ) (st : Frame × List COp)
    {m n : String} {c : Col} (hmn : m ≠ n) (hnn : c.numeric = false)
    (hfc : findCol st.1 m = some c) :
    findCol (missingStep "smart" knn st n).1 m = some c := by
  rcases missingStep_smart_cases knn st n with ⟨hstep, _⟩ | ⟨c2, hfc2, _, hbr⟩
  · rw [hstep]; exact hfc
  · have hc2n := (mem_of_findCol hfc2).2
    rcases hbr with ⟨_, hstep⟩ | ⟨_, _, hbr2⟩ | ⟨_, _, hstep⟩
    · rw [hstep]
      exact (findCol_dropCol_ne st.1 hmn).trans hfc
    · rcases hbr2 with ⟨_, _, hstep⟩ | ⟨_, hstep⟩
      · rw [hstep]
        exact findCol_knnFill knn hfc hnn
      · rw [hstep]
        exact (findCol_setCol_ne st.1 hmn ((fillMedianCol_name c2).trans hc2n)).trans hfc
    · rw [hstep]
      exact (findCol_setCol_ne st.1 hmn (show ({ c2 with
        cells := (fillCells c2.cells (objectFillVal c2)) } : Col).name = n from hc2n)).trans hfc

theorem missingStep_stab_none (knn : String → Nat → ℚ) (st : Frame × List COp)
    (n : String) {m : String} (h : findCol st.1 m = none) :
    findCol (missingStep "smart" knn st n).1 m = none := by
  apply (findCol_eq_none_iff _ _).mpr
  intro hmem
  exact (findCol_eq_none_iff _ _).mp h
    ((missingStep_names_sublist knn st n).subset hmem)

theorem fold_stab (knn : String → Nat → ℚ) : ∀ (l : List String)
    (st : Frame × List COp) {m : String} {c : Col}, m ∉ l →
    c.numeric = false → findCol st.1 m = some c →
    findCol (l.foldl (missingStep "smart" knn) st).1 m = some c := by
  intro l
  induction l with
  | nil => intro st m c _ _ hfc; exact hfc
  | cons n rest ih =>
    intro st m c hml hnn hfc
    rw [List.foldl_cons]
    apply ih _ (fun hm => hml (List.mem_cons_of_mem _ hm)) hnn
    exact missingStep_stab knn st
      (by intro he; exact hml (by rw [he]; exact List.mem_cons_self _ _)) hnn hfc

theorem fold_stab_none (knn : String → Nat → ℚ) : ∀ (l : List String)
    (st : Frame × List COp) {m : String}, findCol st.1 m = none →
    findCol (l.foldl (missingStep "smart" knn) st).1 m = none := by
  intro l
  induction l with
  | nil => intro st m h; exact h
  | cons n rest ih =>
    intro st m h
    rw [List.foldl_cons]
    exact ih _ (missingStep_stab_none knn st n h)

/-- C2 counterexample: in the frame exDfC2 the numeric column b has more
than 90 percent missing values, yet after smart missing-value handling it
is still present (it was filled by the frame-wide KNN pass triggered by
column a, so its own iteration skips it), and the only recorded operation
is the KNN imputation — no drop and no median imputation ever happens. -/
theorem C2_counterexample :
    (90 * exColB.cells.length < 100 * nullCount exColB
      ∧ exColB ∈ exDfC2 ∧ exColB.numeric = true)
    ∧ (handle_missing_values "smart" knn0 exDfC2).1.map Col.name = ["a", "b"]
    ∧ (handle_missing_values "smart" knn0 exDfC2).2 = [.knnApplied] := by
  decide

/-- C2 (amended): with the smart strategy, the returned frame has no
missing value in any retained column and only loses columns (in order);
an object column follows the claimed per-column rule verbatim (untouched
when complete, dropped at more than 90 percent missing, otherwise filled
with its mode or the string Unknown); for a numeric column the claimed
rule holds only at the moment its iteration runs: the column found with
missing values is KNN-imputed together with every other numeric column
when it misses less than 50 percent and another numeric column exists,
and median-imputed otherwise — so a numeric column already completed by
an earlier KNN pass is skipped, even when more than 90 percent of it was
originally missing. -/
theorem C2_smart_missing_amended (knn : String → Nat → ℚ) (df : Frame)
    (hnd : (names df).Nodup) (hno : NumObs df) :
    (∀ c ∈ (handle_missing_values "smart" knn df).1, nullCount c = 0)
    ∧ List.Sublist (names (handle_missing_values "smart" knn df).1) (names df)
    ∧ (∀ c ∈ df, c.numeric = false →
        ((nullCount c = 0 →
            findCol (handle_missing_values "smart" knn df).1 c.name = some c)
         ∧ (90 * c.cells.length < 100 * nullCount c →
            findCol (handle_missing_values "smart" knn df).1 c.name = none)
         ∧ (nullCount c ≠ 0 → ¬ 90 * c.cells.length < 100 * nullCount c →
            findCol (handle_missing_values "smart" knn df).1 c.name
              = some { c with cells := (fillCells c.cells (objectFillVal c)) })))
    ∧ (∀ (st : Frame × List COp) (n : String) (c : Col), findCol st.1 n = some c →
        nullCount c ≠ 0 → ¬ 90 * c.cells.length < 100 * nullCount c → c.numeric = true →
        ((100 * nullCount c < 50 * c.cells.length ∧ 1 < numericColCount st.1 →
            missingStep "smart" knn st n = (knnFillFrame knn st.1, st.2 ++ [.knnApplied]))
         ∧ (¬ (100 * nullCount c < 50 * c.cells.length ∧ 1 < numericColCount st.1) →
            missingStep "smart" knn st n
              = (setCol st.1 n (fillMedianCol c), st.2 ++ [.medianImp n])))) := by
  refine ⟨?_, ?_, ?_, ?_⟩
  · rw [handle_missing_values]
    apply hmv_fold_nonull knn (names df) (df, []) hnd hno
    intro c hc hnot
    exact absurd (List.mem_map_of_mem Col.name hc) hnot
  · rw [handle_missing_values]
    exact fold_names_sublist knn (names df) (df, [])
  · intro c hc hobj
    have hmemn : c.name ∈ names df := List.mem_map_of_mem Col.name hc
    obtain ⟨l1, l2, hsplit⟩ := List.append_of_mem hmemn
    have hnd2 : (l1 ++ c.name :: l2).Nodup := hsplit ▸ hnd
    have hn1 : c.name ∉ l1 := by
      intro hm
      exact (List.disjoint_of_nodup_append hnd2) hm (List.mem_cons_self _ _)
    have hn2 : c.name ∉ l2 := (List.nodup_cons.mp hnd2.of_append_right).1
    have hfold : handle_missing_values "smart" knn df
        = l2.foldl (missingStep "smart" knn)
            (missingStep "smart" knn (l1.foldl (missingStep "smart" knn) (df, [])) c.name) := by
      rw [handle_missing_values, hsplit, List.foldl_append, List.foldl_cons]
    have hst1 : findCol (l1.foldl (missingStep "smart" knn) (df, [])).1 c.name = some c :=
      fold_stab knn l1 (df, []) hn1 hobj (findCol_unique hnd hc)
    set st1 := l1.foldl (missingStep "smart" knn) (df, [])
    refine ⟨?_, ?_, ?_⟩
    · intro h0
      rw [hfold]
      refine fold_stab knn l2 _ hn2 hobj ?_
      rcases missingStep_smart_cases knn st1 c.name with ⟨hstep, _⟩ | ⟨c2, hfc2, hnn2, _⟩
      · rw [hstep]
        exact hst1
      · rw [hst1] at hfc2
        exact absurd (Option.some.inj hfc2 ▸ h0) hnn2
    · intro h90
      rw [hfold]
      apply fold_stab_none knn l2
      rcases missingStep_smart_cases knn st1 c.name with ⟨hstep, hd⟩ | ⟨c2, hfc2, hnn2, hbr⟩
      · exfalso
        rcases hd with hnone | ⟨c3, hfc3, h03⟩
        · rw [hst1] at hnone
          exact Option.noConfusion hnone
        · rw [hst1] at hfc3
          have hceq := Option.some.inj hfc3
          rw [← hceq] at h03
          rw [h03] at h90
          omega
      · have hceq : c2 = c := by
          rw [hst1] at hfc2
          exact (Option.some.inj hfc2).symm
        rw [hceq] at hbr
        rcases hbr with ⟨_, hstep⟩ | ⟨h90n, _, _⟩ | ⟨h90n, _, _⟩
        · rw [hstep]
          exact findCol_dropCol_self st1.1 c.name
        · exact absurd h90 h90n
        · exact absurd h90 h90n
    · intro hnn h90n
      rw [hfold]
      rcases missingStep_smart_cases knn st1 c.name with ⟨hstep, hd⟩ | ⟨c2, hfc2, hnn2, hbr⟩
      · exfalso
        rcases hd with hnone | ⟨c3, hfc3, h03⟩
        · rw [hst1] at hnone
          exact Option.noConfusion hnone
        · rw [hst1] at hfc3
          have hceq := Option.some.inj hfc3
          rw [← hceq] at h03
          exact hnn h03
      · have hceq : c2 = c := by
          rw [hst1] at hfc2
          exact (Option.some.inj hfc2).symm
        rw [hceq] at hbr
        rcases hbr with ⟨h90, _⟩ | ⟨_, hnum2, _⟩ | ⟨_, _, hstep⟩
        · exact absurd h90 h90n
        · rw [hobj] at hnum2
          exact Bool.noConfusion hnum2
        · rw [hstep]
          exact fold_stab knn l2 _ hn2 hobj (findCol_setCol_self hst1 rfl)
  · intro st n c hfc hnn h90n hnum
    constructor
    · intro hk
      rcases missingStep_smart_cases knn st n with ⟨hstep, hd⟩ | ⟨c2, hfc2, hnn2, hbr⟩
      · exfalso
        rcases hd with hnone | ⟨c3, hfc3, h03⟩
        · rw [hfc] at hnone
          exact Option.noConfusion hnone
        · rw [hfc] at hfc3
          have hceq := Option.some.inj hfc3
          rw [← hceq] at h03
          exact hnn h03
      · have hceq : c2 = c := by
          rw [hfc] at hfc2
          exact (Option.some.inj hfc2).symm
        rw [hceq] at hbr
        rcases hbr with ⟨h90, _⟩ | ⟨_, _, hbr2⟩ | ⟨_, hnum2, _⟩
        · exact absurd h90 h90n
        · rcases hbr2 with ⟨_, _, hstep⟩ | ⟨hkn, _⟩
          · exact hstep
          · exact absurd hk hkn
        · rw [hnum] at hnum2
          exact Bool.noConfusion hnum2
    · intro hkn
      rcases missingStep_smart_cases knn st n with ⟨hstep, hd⟩ | ⟨c2, hfc2, hnn2, hbr⟩
      · exfalso
        rcases hd with hnone | ⟨c3, hfc3, h03⟩
        · rw [hfc] at hnone
          exact Option.noConfusion hnone
        · rw [hfc] at hfc3
          have hceq := Option.some.inj hfc3
          rw [← hceq] at h03
          exact hnn h03
      · have hceq : c2 = c := by
          rw [hfc] at hfc2
          exact (Option.some.inj hfc2).symm
        rw [hceq] at hbr
        rcases hbr with ⟨h90, _⟩ | ⟨_, _, hbr2⟩ | ⟨_, hnum2, _⟩
        · exact absurd h90 h90n
        · rcases hbr2 with ⟨hk1, hk2, _⟩ | ⟨_, hstep⟩
          · exact absurd ⟨hk1, hk2⟩ hkn
          · exact hstep
        · rw [hnum] at hnum2
          exact Bool.noConfusion hnum2

/-- C2 witnessed: on the concrete two-column frame the returned column
list is a sublist of the original one. -/
theorem C2_smart_missing_amended_witness :
    List.Sublist (names (handle_missing_values "smart" knn0 exDfC2).1) (names exDfC2) :=
  (C2_smart_missing_amended knn0 exDfC2 (by decide) (by decide)).2.1

/-! ### Lemmas on encode_categorical_variables -/

theorem contains_iff_mem (l : List String) (a : String) : l.contains a = true ↔ a ∈ l := by
  simp [List.contains, List.elem_eq_mem]

theorem contains_append3 (l₁ l₂ : List String) (a : String) :
    (l₁ ++ l₂).contains a = (l₁.contains a || l₂.contains a) := by
  simp [List.contains, List.elem_eq_mem, List.mem_append]

theorem contains_singleton_self (n : String) : ([n] : List String).contains n = true := by
  simp [List.contains, List.elem_eq_mem]

theorem contains_singleton_ne {a x : String} (h : a ≠ x) :
    ([x] : List String).contains a = false := by
  simp [List.contains, List.elem_eq_mem, h]

theorem find?_append_some {α : Type} (p : α → Bool) {A : List α} (B : List α) {c : α}
    (h : List.find? p A = some c) : List.find? p (A ++ B) = some c := by
  induction A with
  | nil => exact Option.noConfusion h
  | cons a t ih =>
    rw [List.cons_append]
    cases hpa : p a with
    | true =>
      rw [find?_cons_pos p a (t ++ B) hpa]
      rw [find?_cons_pos p a t hpa] at h
      exact h
    | false =>
      rw [find?_cons_neg p a (t ++ B) hpa]
      rw [find?_cons_neg p a t hpa] at h
      exact ih h

theorem keepCol_name {done : List String} {c c' : Col} (h : keepCol done c = some c') :
    c'.name = c.name := by
  unfold keepCol at h
  by_cases hcond : (!c.numeric && done.contains c.name) = true
  · rw [if_pos hcond] at h
    by_cases h10 : nuniqueCol c ≤ 10
    · rw [if_pos h10] at h
      exact Option.noConfusion h
    · rw [if_neg h10] at h
      by_cases h50 : nuniqueCol c ≤ 50
      · rw [if_pos h50] at h
        rw [← Option.some.inj h]
        rfl
      · rw [if_neg h50] at h
        exact Option.noConfusion h
  · rw [if_neg hcond] at h
    rw [← Option.some.inj h]

theorem keepCol_not_done {done : List String} {c : Col}
    (h : done.contains c.name = false) : keepCol done c = some c := by
  unfold keepCol
  rw [h, Bool.and_false, if_neg Bool.false_ne_true]

theorem keepCol_append_ne {done : List String} {n : String} {c : Col} (h : c.name ≠ n) :
    keepCol (done ++ [n]) c = keepCol done c := by
  unfold keepCol
  rw [contains_append3, contains_singleton_ne h, Bool.or_false]

theorem keepCol_nil (df : Frame) : df.filterMap (keepCol []) = df := by
  induction df with
  | nil => rfl
  | cons d t ih =>
    rw [List.filterMap_cons,
      keepCol_not_done (show ([] : List String).contains d.name = false from rfl), ih]

theorem findCol_filterMap_keep (done : List String) {df : Frame} {n : String} {c : Col}
    (hfc : findCol df n = some c) (hn : done.contains n = false) :
    findCol (df.filterMap (keepCol done)) n = some c := by
  induction df with
  | nil => exact Option.noConfusion hfc
  | cons d t ih =>
    simp only [findCol] at hfc ⊢
    rw [List.filterMap_cons]
    by_cases hdn : (d.name == n) = true
    · rw [find?_cons_pos (fun c0 : Col => c0.name == n) d t hdn] at hfc
      have hdc : d = c := Option.some.inj hfc
      have hcont : done.contains d.name = false := by
        rw [beq_iff_eq.mp hdn]
        exact hn
      rw [keepCol_not_done hcont]
      show List.find? (fun c0 : Col => c0.name == n) (d :: t.filterMap (keepCol done)) = some c
      rw [find?_cons_pos (fun c0 : Col => c0.name == n) d _ hdn, hdc]
    · rw [find?_cons_neg (fun c0 : Col => c0.name == n) d t (Bool.eq_false_iff.mpr hdn)] at hfc
      cases hk : keepCol done d with
      | none =>
        show List.find? (fun c0 : Col => c0.name == n) (t.filterMap (keepCol done)) = some c
        exact ih hfc
      | some d' =>
        show List.find? (fun c0 : Col => c0.name == n) (d' :: t.filterMap (keepCol done)) = some c
        rw [find?_cons_neg (fun c0 : Col => c0.name == n) d' _
          (by show (d'.name == n) = false
              rw [keepCol_name hk]
              exact Bool.eq_false_iff.mpr hdn)]
        exact ih hfc

theorem dropCol_append (A B : Frame) (n : String) :
    dropCol (A ++ B) n = dropCol A n ++ dropCol B n := by
  unfold dropCol
  exact List.filter_append A B

theorem setCol_append (A B : Frame) (n : String) (c' : Col) :
    setCol (A ++ B) n c' = setCol A n c' ++ setCol B n c' := by
  unfold setCol
  rw [List.map_append]

theorem dropCol_eq_self {B : Frame} {n : String} (h : n ∉ names B) : dropCol B n = B := by
  induction B with
  | nil => rfl
  | cons b t ih =>
    have hbn : (b.name != n) = true := bne_iff_ne.mpr
      (fun he => h (by rw [← he]; exact List.mem_map_of_mem Col.name (List.mem_cons_self b t)))
    have ht : n ∉ names t := fun hm => h (List.mem_cons_of_mem _ hm)
    show List.filter (fun c => c.name != n) (b :: t) = b :: t
    simp only [List.filter_cons]
    rw [if_pos hbn]
    rw [show List.filter (fun c => c.name != n) t = t from ih ht]

theorem setCol_eq_self {B : Frame} {n : String} {c' : Col} (h : n ∉ names B) :
    setCol B n c' = B := by
  induction B with
  | nil => rfl
  | cons b t ih =>
    have hbn : (b.name == n) = false := beq_eq_false_iff_ne.mpr
      (fun he => h (by rw [← he]; exact List.mem_map_of_mem Col.name (List.mem_cons_self b t)))
    have ht : n ∉ names t := fun hm => h (List.mem_cons_of_mem _ hm)
    show List.map (fun c => if c.name == n then c' else c) (b :: t) = b :: t
    simp only [List.map_cons]
    rw [if_neg (Bool.eq_false_iff.mp hbn)]
    rw [show List.map (fun c => if c.name == n then c' else c) t = t from ih ht]

theorem dropCol_filterMap {done : List String} {n : String} {df : Frame}
    (hn : done.contains n = false)
    (h : ∀ c0 ∈ df, c0.name = n → keepCol (done ++ [n]) c0 = none) :
    dropCol (df.filterMap (keepCol done)) n = df.filterMap (keepCol (done ++ [n])) := by
  induction df with
  | nil => rfl
  | cons d t ih =>
    have iht := ih (fun c0 hc0 hc0n => h c0 (List.mem_cons_of_mem d hc0) hc0n)
    by_cases hdn : d.name = n
    · have h1 : keepCol done d = some d := keepCol_not_done (by rw [hdn]; exact hn)
      have h2 : keepCol (done ++ [n]) d = none := h d (List.mem_cons_self d t) hdn
      rw [List.filterMap_cons, h1, List.filterMap_cons, h2]
      show List.filter (fun c => c.name != n) (d :: t.filterMap (keepCol done))
        = t.filterMap (keepCol (done ++ [n]))
      simp only [List.filter_cons]
      rw [if_neg (show ¬ (d.name != n) = true from by
        rw [hdn, bne_self_eq_false]; exact Bool.false_ne_true)]
      exact iht
    · have h2 : keepCol (done ++ [n]) d = keepCol done d := keepCol_append_ne hdn
      rw [List.filterMap_cons, List.filterMap_cons, h2]
      cases hk : keepCol done d with
      | none =>
        exact iht
      | some d' =>
        show List.filter (fun c => c.name != n) (d' :: t.filterMap (keepCol done))
          = d' :: t.filterMap (keepCol (done ++ [n]))
        simp only [List.filter_cons]
        rw [if_pos (show (d'.name != n) = true from bne_iff_ne.mpr
          (by rw [keepCol_name hk]; exact hdn))]
        rw [show List.filter (fun c => c.name != n) (t.filterMap (keepCol done))
          = t.filterMap (keepCol (done ++ [n])) from iht]

theorem setCol_filterMap {done : List String} {n : String} {df : Frame} {c' : Col}
    (hn : done.contains n = false) (hc' : c'.name = n)
    (h : ∀ c0 ∈ df, c0.name = n → keepCol (done ++ [n]) c0 = some c') :
    setCol (df.filterMap (keepCol done)) n c' = df.filterMap (keepCol (done ++ [n])) := by
  induction df with
  | nil => rfl
  | cons d t ih =>
    have iht := ih (fun c0 hc0 hc0n => h c0 (List.mem_cons_of_mem d hc0) hc0n)
    by_cases hdn : d.name = n
    · have h1 : keepCol done d = some d := keepCol_not_done (by rw [hdn]; exact hn)
      have h2 : keepCol (done ++ [n]) d = some c' := h d (List.mem_cons_self d t) hdn
      rw [List.filterMap_cons, h1, List.filterMap_cons, h2]
      show List.map (fun c => if c.name == n then c' else c) (d :: t.filterMap (keepCol done))
        = c' :: t.filterMap (keepCol (done ++ [n]))
      simp only [List.map_cons]
      rw [if_pos (show (d.name == n) = true from by rw [hdn]; exact beq_self_eq_true n)]
      rw [show List.map (fun c => if c.name == n then c' else c) (t.filterMap (keepCol done))
        = t.filterMap (keepCol (done ++ [n])) from iht]
    · have h2 : keepCol (done ++ [n]) d = keepCol done d := keepCol_append_ne hdn
      rw [List.filterMap_cons, List.filterMap_cons, h2]
      cases hk : keepCol done d with
      | none =>
        exact iht
      | some d' =>
        show List.map (fun c => if c.name == n then c' else c) (d' :: t.filterMap (keepCol done))
          = d' :: t.filterMap (keepCol (done ++ [n]))
        simp only [List.map_cons]
        rw [if_neg (show ¬ (d'.name == n) = true from by
          rw [show d'.name = d.name from keepCol_name hk]
          exact Bool.eq_false_iff.mp (beq_eq_false_iff_ne.mpr hdn))]
        rw [show List.map (fun c => if c.name == n then c' else c) (t.filterMap (keepCol done))
          = t.filterMap (keepCol (done ++ [n])) from iht]

theorem blocks_names {df : Frame} {done : List String} {b : Col}
    (h : b ∈ (done.map (blockOf df)).flatten) : b.name ∈ encodeNewNames df done := by
  obtain ⟨L, hL, hbL⟩ := List.mem_flatten.mp h
  obtain ⟨m, hm, hLm⟩ := List.mem_map.mp hL
  apply List.mem_flatten.mpr
  refine ⟨(blockOf df m).map Col.name, ?_, ?_⟩
  · exact List.mem_map_of_mem (fun n => (blockOf df n).map Col.name) hm
  · rw [← hLm] at hbL
    exact List.mem_map_of_mem Col.name hbL

theorem encodeNewNames_append (df : Frame) (l₁ l₂ : List String) :
    encodeNewNames df (l₁ ++ l₂) = encodeNewNames df l₁ ++ encodeNewNames df l₂ := by
  unfold encodeNewNames
  rw [List.map_append, List.flatten_append]

theorem flatten_map_append_singleton {α β : Type} (f : α → List β) (l : List α) (n : α) :
    ((l ++ [n]).map f).flatten = (l.map f).flatten ++ f n := by
  rw [List.map_append, List.flatten_append]
  simp

theorem encodeTargets_allobj (df : Frame) (tgt : Option String) :
    ∀ n ∈ encodeTargets df tgt, ∃ c ∈ df, c.name = n ∧ c.numeric = false := by
  have hcats : ∀ n ∈ (df.filter (fun c => !c.numeric)).map Col.name,
      ∃ c ∈ df, c.name = n ∧ c.numeric = false := by
    intro n hn
    obtain ⟨c, hcf, hcn⟩ := List.mem_map.mp hn
    have hmem := List.mem_filter.mp hcf
    refine ⟨c, hmem.1, hcn, ?_⟩
    have hb : (!c.numeric) = true := hmem.2
    cases hnum : c.numeric with
    | false => rfl
    | true => rw [hnum] at hb; exact Bool.noConfusion hb
  intro n hn
  unfold encodeTargets at hn
  cases tgt with
  | none => exact hcats n hn
  | some t =>
    dsimp only at hn
    by_cases hcond : (t != "" && ((df.filter (fun c => !c.numeric)).map Col.name).contains t) = true
    · rw [if_pos hcond] at hn
      exact hcats n (List.mem_of_mem_filter hn)
    · rw [if_neg hcond] at hn
      exact hcats n hn

theorem encodeTargets_nodup (df : Frame) (tgt : Option String)
    (hnd : (names df).Nodup) : (encodeTargets df tgt).Nodup := by
  have hcats : ((df.filter (fun c => !c.numeric)).map Col.name).Nodup :=
    hnd.sublist ((List.filter_sublist df).map Col.name)
  unfold encodeTargets
  cases tgt with
  | none => exact hcats
  | some t =>
    dsimp only
    by_cases hcond : (t != "" && ((df.filter (fun c => !c.numeric)).map Col.name).contains t) = true
    · rw [if_pos hcond]
      exact hcats.filter _
    · rw [if_neg hcond]
      exact hcats

/-- The encoding loop invariant: after processing a prefix of the
category list, the frame consists of the untouched / label-encoded
surviving columns followed by the dummy blocks of the processed columns
in order. -/
theorem encode_fold (df : Frame) (hnd : (names df).Nodup) :
    ∀ (rest done : List String),
    (∀ m ∈ done ++ rest, ∃ c ∈ df, c.name = m ∧ c.numeric = false) →
    (done ++ rest).Nodup →
    encodeNamesOk df (done ++ rest) →
    rest.foldl encodeStep
      (df.filterMap (keepCol done) ++ ((done.map (blockOf df)).flatten))
      = df.filterMap (keepCol (done ++ rest)) ++ (((done ++ rest).map (blockOf df)).flatten) := by
  intro rest
  induction rest with
  | nil =>
    intro done _ _ _
    rw [List.append_nil]
    rfl
  | cons n rs ih =>
    intro done hall hndc hok
    rw [List.foldl_cons]
    obtain ⟨c, hc, hcn, hobj⟩ := hall n (List.mem_append_right done (List.mem_cons_self n rs))
    have hfc : findCol df n = some c := by
      have h1 := findCol_unique hnd hc
      rw [hcn] at h1
      exact h1
    have hnmem : n ∉ done :=
      fun hm => (List.disjoint_of_nodup_append hndc) hm (List.mem_cons_self n rs)
    have hnotdone : done.contains n = false := by
      cases hcont : done.contains n with
      | false => rfl
      | true => exact absurd ((contains_iff_mem done n).mp hcont) hnmem
    have hfreshB : n ∉ names ((done.map (blockOf df)).flatten) := by
      intro hmem
      obtain ⟨b, hb, hbn⟩ := List.mem_map.mp hmem
      have h1 := blocks_names hb
      rw [hbn] at h1
      have h2 : n ∈ encodeNewNames df (done ++ n :: rs) :=
        (encodeNewNames_append df done (n :: rs)).symm ▸ List.mem_append_left _ h1
      have hok2 : (names df ++ encodeNewNames df (done ++ n :: rs)).Nodup := hok
      exact (List.disjoint_of_nodup_append hok2)
        (hcn ▸ List.mem_map_of_mem Col.name hc) h2
    have hKeepN : ∀ c0 ∈ df, c0.name = n → c0 = c := by
      intro c0 hc0 hc0n
      have h1 := findCol_unique hnd hc0
      rw [hc0n, hfc] at h1
      exact (Option.some.inj h1).symm
    have hfcS : findCol (df.filterMap (keepCol done) ++ ((done.map (blockOf df)).flatten)) n
        = some c :=
      find?_append_some (fun c0 : Col => c0.name == n) _
        (findCol_filterMap_keep done hfc hnotdone)
    have hkeepc : (done ++ [n]).contains c.name = true := by
      rw [hcn, contains_append3, contains_singleton_self, Bool.or_true]
    have hcondc : (!c.numeric && (done ++ [n]).contains c.name) = true := by
      rw [hobj, hkeepc]
      rfl
    have harr : (done ++ [n]) ++ rs = done ++ n :: rs := by
      rw [List.append_assoc]
      rfl
    have hall' : ∀ m ∈ (done ++ [n]) ++ rs, ∃ c0 ∈ df, c0.name = m ∧ c0.numeric = false := by
      rw [harr]; exact hall
    have hndc' : ((done ++ [n]) ++ rs).Nodup := by
      rw [harr]; exact hndc
    have hok' : encodeNamesOk df ((done ++ [n]) ++ rs) := by
      rw [harr]; exact hok
    have hih := ih (done ++ [n]) hall' hndc' hok'
    rw [harr] at hih
    by_cases h10 : nuniqueCol c ≤ 10
    · have hstep : encodeStep (df.filterMap (keepCol done) ++ ((done.map (blockOf df)).flatten)) n
          = dropCol (df.filterMap (keepCol done) ++ ((done.map (blockOf df)).flatten)) n
            ++ dummyCols n c.cells := by
        unfold encodeStep
        rw [hfcS]
        dsimp only
        rw [if_pos h10]
      have hdrop : ∀ c0 ∈ df, c0.name = n → keepCol (done ++ [n]) c0 = none := by
        intro c0 hc0 hc0n
        rw [hKeepN c0 hc0 hc0n]
        unfold keepCol
        rw [if_pos hcondc, if_pos h10]
      have hblock : blockOf df n = dummyCols n c.cells := by
        unfold blockOf
        rw [hfc]
        dsimp only
        rw [if_pos h10]
      rw [hstep, dropCol_append, dropCol_eq_self hfreshB, dropCol_filterMap hnotdone hdrop,
        List.append_assoc, ← hblock, ← flatten_map_append_singleton (blockOf df) done n]
      exact hih
    · by_cases h50 : nuniqueCol c ≤ 50
      · have hstep : encodeStep
            (df.filterMap (keepCol done) ++ ((done.map (blockOf df)).flatten)) n
            = setCol (df.filterMap (keepCol done) ++ ((done.map (blockOf df)).flatten)) n
                (labelEncodeCol c) := by
          unfold encodeStep
          rw [hfcS]
          dsimp only
          rw [if_neg h10, if_pos h50]
        have hset : ∀ c0 ∈ df, c0.name = n →
            keepCol (done ++ [n]) c0 = some (labelEncodeCol c) := by
          intro c0 hc0 hc0n
          rw [hKeepN c0 hc0 hc0n]
          unfold keepCol
          rw [if_pos hcondc, if_neg h10, if_pos h50]
        have hblock : blockOf df n = [] := by
          unfold blockOf
          rw [hfc]
          dsimp only
          rw [if_neg h10, if_pos h50]
        rw [hstep, setCol_append, setCol_eq_self hfreshB,
          setCol_filterMap hnotdone (show (labelEncodeCol c).name = n from hcn) hset,
          show ((done.map (blockOf df)).flatten)
              = (done.map (blockOf df)).flatten ++ blockOf df n from by rw [hblock, List.append_nil],
          ← flatten_map_append_singleton (blockOf df) done n]
        exact hih
      · have hstep : encodeStep
            (df.filterMap (keepCol done) ++ ((done.map (blockOf df)).flatten)) n
            = dropCol (df.filterMap (keepCol done) ++ ((done.map (blockOf df)).flatten)) n
              ++ dummyCols n (groupTopCol c 20).cells := by
          unfold encodeStep
          rw [hfcS]
          dsimp only
          rw [if_neg h10, if_neg h50]
        have hdrop : ∀ c0 ∈ df, c0.name = n → keepCol (done ++ [n]) c0 = none := by
          intro c0 hc0 hc0n
          rw [hKeepN c0 hc0 hc0n]
          unfold keepCol
          rw [if_pos hcondc, if_neg h10, if_neg h50]
        have hblock : blockOf df n = dummyCols n (groupTopCol c 20).cells := by
          unfold blockOf
          rw [hfc]
          dsimp only
          rw [if_neg h10, if_neg h50]
        rw [hstep, dropCol_append, dropCol_eq_self hfreshB, dropCol_filterMap hnotdone hdrop,
          List.append_assoc, ← hblock, ← flatten_map_append_singleton (blockOf df) done n]
        exact hih

/-- C3: encode_categorical_variables implements the cardinality rule:
provided the frame's column names are distinct and the dummy-column
names it creates collide neither with them nor with each other, the
result equals the flat description encodeFlat — every non-target object
column with at most 10 distinct values is replaced by one-hot dummy
columns, with at most 50 it is label-encoded in place, beyond that it is
grouped to its top 20 categories plus Other and one-hot encoded — and a
truthy named target, as well as every numeric column, is never in the
processed list. -/
theorem C3_cardinality_encoding (df : Frame) (tgt : Option String)
    (hnd : (names df).Nodup) (hok : encodeNamesOk df (encodeTargets df tgt)) :
    encode_categorical_variables df tgt = encodeFlat df (encodeTargets df tgt)
    ∧ (∀ t, tgt = some t → t ≠ "" → t ∉ encodeTargets df tgt)
    ∧ (∀ c ∈ df, c.numeric = true → c.name ∉ encodeTargets df tgt) := by
  refine ⟨?_, ?_, ?_⟩
  · have h := encode_fold df hnd (encodeTargets df tgt) []
      (encodeTargets_allobj df tgt) (encodeTargets_nodup df tgt hnd) hok
    rw [keepCol_nil] at h
    rw [encode_categorical_variables, encodeFlat]
    rw [show ((([] : List String).map (blockOf df)).flatten : Frame) = [] from rfl,
      List.append_nil] at h
    rw [show (([] : List String) ++ encodeTargets df tgt) = encodeTargets df tgt from rfl] at h
    exact h
  · intro t ht htne
    rw [ht]
    unfold encodeTargets
    dsimp only
    by_cases hcond : (t != ""
        && ((df.filter (fun c => !c.numeric)).map Col.name).contains t) = true
    · rw [if_pos hcond]
      intro hmem
      have hb : (t != t) = true := (List.mem_filter.mp hmem).2
      rw [bne_self_eq_false] at hb
      exact Bool.noConfusion hb
    · rw [if_neg hcond]
      intro hmem
      apply hcond
      rw [bne_iff_ne.mpr htne, (contains_iff_mem _ _).mpr hmem]
      rfl
  · intro c hc hnum hmem
    obtain ⟨c0, hc0, hc0n, hc0num⟩ := encodeTargets_allobj df tgt c.name hmem
    have h1 := findCol_unique hnd hc0
    rw [hc0n] at h1
    have h2 := findCol_unique hnd hc
    rw [h1] at h2
    have hceq := Option.some.inj h2
    rw [← hceq, hc0num] at hnum
    exact Bool.noConfusion hnum

/-- C3 witnessed: on a numeric target column and a single low-cardinality
object column the encoding equals its flat description. -/
theorem C3_cardinality_encoding_witness :
    encode_categorical_variables exDfC3 (some "t")
      = encodeFlat exDfC3 (encodeTargets exDfC3 (some "t")) :=
  (C3_cardinality_encoding exDfC3 (some "t") (by decide) (by decide)).1

end Rithm
